import Mathlib

/-!
Verification of the person-tracking and alert-throttling core of the
jewelry-shop camera system (`camera_manager/person_tracker.py`).

The development is a shallow embedding: Python dictionaries become
insertion-ordered association lists, wall-clock times and pixel
coordinates become rationals, the wall clock / current hour / random
draw become explicit parameters, and `uuid.uuid4()` becomes an explicit
supply of fresh identifiers.  Every definition follows the Python
source line by line; theorems about the spec's claims come afterwards.
-/

/-- An insertion-ordered association list, modelling a Python `dict`
with string keys. -/
abbrev Dict (α : Type) := List (String × α)

/-- `d.get(k)` / `k in d`: the first binding of `k`, if any. -/
def dlookup {α : Type} (d : Dict α) (k : String) : Option α :=
  match d with
  | [] => none
  | (k', v) :: rest => if k' = k then some v else dlookup rest k

/-- `d[k] = v`: overwrite in place if the key is present, otherwise
append (Python dicts preserve insertion order). -/
def dinsert {α : Type} (d : Dict α) (k : String) (v : α) : Dict α :=
  match d with
  | [] => [(k, v)]
  | (k', v') :: rest =>
    if k' = k then (k, v) :: rest else (k', v') :: dinsert rest k v

/-- An axis-aligned bounding box `[x1, y1, x2, y2]` in pixel
coordinates. -/
structure Box where
  x1 : ℚ
  y1 : ℚ
  x2 : ℚ
  y2 : ℚ
deriving DecidableEq, Repr

/-- Square root on the rationals, modelling the Python float
expression `(...) ** 0.5`.  It is exact on perfect squares, which are
the only inputs where concrete evaluation is performed in this
development; floats themselves carry no exact semantics to embed. -/
def ratSqrt (q : ℚ) : ℚ :=
  if q ≤ 0 then 0 else (Nat.sqrt q.num.toNat : ℚ) / (Nat.sqrt q.den : ℚ)

/-- Truncation toward zero, modelling Python's `int(...)` on a
rational value. -/
def pyTrunc (q : ℚ) : ℤ :=
  Int.tdiv q.num (q.den : ℤ)

/-- `s.lower()`: character-wise lowercasing (structural recursion over
the character list, so that concrete instances evaluate). -/
def pyLower (s : String) : String :=
  String.mk (s.data.map Char.toLower)

/-- `s.split(",")` on the character list: every comma separates, empty
fields are kept, the empty string yields `[""]` — Python semantics. -/
def splitCommaAux : List Char → List String
  | [] => [""]
  | c :: rest =>
    if c = ',' then "" :: splitCommaAux rest
    else
      match splitCommaAux rest with
      | s :: ss => String.mk (c :: s.data) :: ss
      | [] => [String.mk [c]]

/-- `s.split(",")`. -/
def pySplitComma (s : String) : List String :=
  splitCommaAux s.data

/-- `PersonTracker._calculate_iou`. -/
def calcIoU (bbox1 bbox2 : Box) : ℚ :=
  let x_left := max bbox1.x1 bbox2.x1
  let y_top := max bbox1.y1 bbox2.y1
  let x_right := min bbox1.x2 bbox2.x2
  let y_bottom := min bbox1.y2 bbox2.y2
  if x_right < x_left ∨ y_bottom < y_top then 0
  else
    let intersection := (x_right - x_left) * (y_bottom - y_top)
    let area1 := (bbox1.x2 - bbox1.x1) * (bbox1.y2 - bbox1.y1)
    let area2 := (bbox2.x2 - bbox2.x1) * (bbox2.y2 - bbox2.y1)
    if area1 ≤ 0 ∨ area2 ≤ 0 then 0
    else
      let union := area1 + area2 - intersection
      if union > 0 then intersection / union else 0

/-- `PersonTracker._calculate_center_distance`. -/
def centerDistance (bbox1 bbox2 : Box) : ℚ :=
  let x1_center := (bbox1.x1 + bbox1.x2) / 2
  let y1_center := (bbox1.y1 + bbox1.y2) / 2
  let x2_center := (bbox2.x1 + bbox2.x2) / 2
  let y2_center := (bbox2.y1 + bbox2.y2) / 2
  ratSqrt ((x1_center - x2_center) ^ 2 + (y1_center - y2_center) ^ 2)

/-- One entry of the module-level `GLOBAL_SUPPRESSION` table. -/
structure GlobalEntry where
  last_alert_time : ℚ
  min_interval : ℚ
  count : ℕ
deriving DecidableEq, Repr

/-- The global suppression table, keyed by alert type. -/
abbrev GlobalTable := Dict GlobalEntry

/-- The initial value of the module-level `GLOBAL_SUPPRESSION`
dictionary. -/
def GLOBAL_SUPPRESSION_init : GlobalTable :=
  [("Hands_Up", ⟨0, 1200, 0⟩), ("Weapon", ⟨0, 600, 0⟩)]

/-- A tracked person (class `Person`).  The `features` attribute is
always `None` in the tracker and is omitted. -/
structure Person where
  id : String
  bbox : Box
  confidence : ℚ
  first_seen : ℚ
  last_seen : ℚ
  last_alert_time : Dict ℚ
  alert_count : Dict ℕ
  frames_tracked : ℕ
  detection_history : List (ℚ × ℚ × ℚ)
  movement_score : ℚ
  time_at_location : Dict ℚ
deriving DecidableEq, Repr

/-- `Person.__init__`: `now` stands for the `time.time()` calls. -/
def Person.init (id : String) (bbox : Box) (confidence : ℚ) (now : ℚ) : Person :=
  { id := id
    bbox := bbox
    confidence := confidence
    first_seen := now
    last_seen := now
    last_alert_time :=
      [("Hands_Up", 0), ("Weapon", 0), ("Face_Covered", 0), ("Suspicious", 0)]
    alert_count :=
      [("Hands_Up", 0), ("Weapon", 0), ("Face_Covered", 0), ("Suspicious", 0)]
    frames_tracked := 1
    detection_history := []
    movement_score := 0
    time_at_location := [] }

/-- `Person._get_location_key` with the default `grid_size=50`. -/
def locationKey (x y : ℚ) : String :=
  let grid_x := pyTrunc (x / 50)
  let grid_y := pyTrunc (y / 50)
  s!"{grid_x}_{grid_y}"

/-- The summand loop of `Person._calculate_movement_score`: for each
consecutive pair of history samples, Euclidean displacement divided by
the time difference (pairs with non-positive time difference
contribute nothing). -/
def movementSum : List (ℚ × ℚ × ℚ) → ℚ
  | a :: b :: rest =>
    (if b.2.2 - a.2.2 > 0 then
      ratSqrt ((b.1 - a.1) ^ 2 + (b.2.1 - a.2.1) ^ 2) / (b.2.2 - a.2.2)
    else 0) + movementSum (b :: rest)
  | _ => 0

/-- `Person._calculate_movement_score`, as a function of the history:
0 for fewer than 2 samples, otherwise the pair sum divided by the
number of history samples. -/
def calcMovementScore (hist : List (ℚ × ℚ × ℚ)) : ℚ :=
  if hist.length < 2 then 0 else movementSum hist / (hist.length : ℚ)

/-- `Person.update` (tracking update on a successful match).  The
tracker always passes a concrete confidence, and `features` is always
`None`; `now` stands for the `time.time()` calls of the method body. -/
def Person.update (p : Person) (bbox : Box) (confidence : ℚ) (now : ℚ) : Person :=
  let center_x := (bbox.x1 + bbox.x2) / 2
  let center_y := (bbox.y1 + bbox.y2) / 2
  let hist1 := p.detection_history ++ [(center_x, center_y, now)]
  let hist2 := if hist1.length > 10 then hist1.tail else hist1
  let key := locationKey center_x center_y
  { p with
    bbox := bbox
    confidence := confidence
    last_seen := now
    frames_tracked := p.frames_tracked + 1
    detection_history := hist2
    movement_score := calcMovementScore hist2
    -- `time.time() - self.last_seen`: `last_seen` was just set to the
    -- current time, so the increment is `now - now`.
    time_at_location :=
      dinsert p.time_at_location key
        (((dlookup p.time_at_location key).getD 0) + (now - now)) }

/-- The dynamic per-person interval computed inside `Person.can_alert`:
the base interval scaled by the repeat factor `min(5, 1 + 0.25*count)`
(applied only when the prior count is positive, which coincides with
the unconditional product), by 1.5 for a movement score above 10, and
by 1.5 during business hours (8:00-18:59). -/
def dynamicInterval (p : Person) (alert_type : String) (min_interval : ℚ) (hour : ℕ) : ℚ :=
  let cnt := (dlookup p.alert_count alert_type).getD 0
  let d0 := if 0 < cnt then min_interval * min 5 (1 + (1/4) * (cnt : ℚ)) else min_interval
  let d1 := if p.movement_score > 10 then d0 * (3/2) else d0
  if 8 ≤ hour ∧ hour ≤ 18 then d1 * (3/2) else d1

/-- `Person.can_alert`: the global suppression gate followed by the
per-person dynamic-interval check.  `now` is `time.time()` and `hour`
is `datetime.now().hour`. -/
def Person.can_alert (p : Person) (g : GlobalTable) (alert_type : String)
    (min_interval : ℚ) (now : ℚ) (hour : ℕ) : Bool :=
  let globalBlock :=
    match dlookup g alert_type with
    | some e => decide (now - e.last_alert_time < e.min_interval)
    | none => false
  if globalBlock then false
  else
    let last_alert := (dlookup p.last_alert_time alert_type).getD 0
    decide (now - last_alert ≥ dynamicInterval p alert_type min_interval hour)

/-- `Person.record_alert`: stamps the person's per-type time, updates
the global suppression table when the type has an entry, and bumps the
per-type count. -/
def Person.record_alert (p : Person) (g : GlobalTable) (alert_type : String)
    (now : ℚ) : Person × GlobalTable :=
  let p1 := { p with last_alert_time := dinsert p.last_alert_time alert_type now }
  let g1 :=
    match dlookup g alert_type with
    | some e => dinsert g alert_type ⟨now, e.min_interval, e.count + 1⟩
    | none => g
  let p2 :=
    { p1 with
      alert_count :=
        dinsert p1.alert_count alert_type
          ((dlookup p.alert_count alert_type).getD 0 + 1) }
  (p2, g1)

/-- `Person.get_time_since_last_alert`, for the types present in the
person's table (absent types give "infinite" elapsed time and are only
compared for logging, so they are not modelled). -/
def Person.time_since_last_alert (p : Person) (alert_type : String) (now : ℚ) : Option ℚ :=
  (dlookup p.last_alert_time alert_type).map (fun t => now - t)

/-- A raw detection dictionary as consumed by the tracker.  Each field
models the presence or absence of the corresponding key; the code
reads them with `detection.get("class_name", "")`,
`detection.get("bbox", [0, 0, 10, 10])` and
`detection.get("confidence", 0.0)`. -/
structure Detection where
  class_name : Option String
  confidence : Option ℚ
  bbox : Option Box
deriving DecidableEq, Repr

/-- `detection.get("class_name", "").lower() == "person"`. -/
def isPersonDet (d : Detection) : Bool :=
  pyLower (d.class_name.getD "") == "person"

/-- `detection.get("bbox", [0, 0, 10, 10])`. -/
def detBbox (d : Detection) : Box :=
  d.bbox.getD ⟨0, 0, 10, 10⟩

/-- `detection.get("confidence", 0.0)`. -/
def detConfidence (d : Detection) : ℚ :=
  d.confidence.getD 0

/-- Per-camera alert history: the timestamp list and the cooldown
deadline. -/
structure CameraHistory where
  alerts : List ℚ
  cooldown_until : ℚ
deriving DecidableEq, Repr

/-- The `PersonTracker` state (fields of `PersonTracker.__init__`). -/
structure PersonTracker where
  people : Dict Person
  max_distance_threshold : ℚ
  min_iou_threshold : ℚ
  use_spatial : Bool
  use_appearance : Bool
  person_memory : ℚ
  alert_interval : ℚ
  max_alerts_per_interval : ℕ
  camera_alert_history : Dict CameraHistory
  camera_cooldown_period : ℚ
deriving DecidableEq, Repr

/-- A `PersonTracker()` with the default constructor arguments. -/
def PersonTracker.init : PersonTracker :=
  { people := []
    max_distance_threshold := 200
    min_iou_threshold := 1/10
    use_spatial := true
    use_appearance := true
    person_memory := 3600
    alert_interval := 1200
    max_alerts_per_interval := 2
    camera_alert_history := []
    camera_cooldown_period := 3600 }

/-- The eviction sweep at the start of `PersonTracker.update`: drop
every person with `now - last_seen > person_memory`. -/
def evictStale (people : Dict Person) (now mem : ℚ) : Dict Person :=
  people.filter (fun kv => ! decide (now - kv.2.last_seen > mem))

/-- One cell of the similarity matrix of `PersonTracker.update`.
`⊥` is the `-inf` given to non-person detections. -/
def similarity (tr : PersonTracker) (p : Person) (d : Detection) : WithBot ℚ :=
  if ¬ isPersonDet d then ⊥
  else if tr.use_spatial then
    let bbox := detBbox d
    let iou := calcIoU p.bbox bbox
    let center_distance := centerDistance p.bbox bbox
    if center_distance > tr.max_distance_threshold then ((-1 : ℚ) : WithBot ℚ)
    else if iou > tr.min_iou_threshold then (iou : WithBot ℚ)
    else ((max 0 (1 - center_distance / tr.max_distance_threshold) * (4/5) : ℚ) : WithBot ℚ)
  else ((1/2 : ℚ) : WithBot ℚ)

/-- The person × detection similarity matrix (row order = dict
insertion order of `self.people`). -/
abbrev SimMatrix := List (List (WithBot ℚ))

/-- Build the similarity matrix of `PersonTracker.update`. -/
def simMatrix (tr : PersonTracker) (people : Dict Person) (dets : List Detection) : SimMatrix :=
  people.map (fun kv => dets.map (fun d => similarity tr kv.2 d))

/-- The entry of a matrix at row `i`, column `j`, if both are in
range. -/
def entry? (m : SimMatrix) (i j : ℕ) : Option (WithBot ℚ) :=
  (m.get? i).bind (fun row => row.get? j)

/-- First maximum of a row (`np.argmax` picks the first occurrence). -/
def argmaxRow : List (WithBot ℚ) → Option (ℕ × WithBot ℚ)
  | [] => none
  | v :: rest =>
    match argmaxRow rest with
    | none => some (0, v)
    | some (j, w) => if w > v then some (j + 1, w) else some (0, v)

/-- `np.unravel_index(np.argmax(m), m.shape)` together with the
maximal value: the first maximum in row-major order, or `none` for a
matrix with no entries (where `np.argmax` raises `ValueError`). -/
def argmaxMat : SimMatrix → Option (ℕ × ℕ × WithBot ℚ)
  | [] => none
  | row :: rest =>
    match argmaxRow row, argmaxMat rest with
    | none, none => none
    | some (j, v), none => some (0, j, v)
    | none, some (i, j, w) => some (i + 1, j, w)
    | some (j, v), some (i, jw, w) =>
      if w > v then some (i + 1, jw, w) else some (0, j, v)

/-- `similarity_matrix[i, :] = -1`. -/
def maskRow (m : SimMatrix) (i : ℕ) : SimMatrix :=
  match m.get? i with
  | some row => m.set i (row.map (fun _ => ((-1 : ℚ) : WithBot ℚ)))
  | none => m

/-- `similarity_matrix[:, j] = -1`. -/
def maskCol (m : SimMatrix) (j : ℕ) : SimMatrix :=
  m.map (fun row => row.set j ((-1 : ℚ) : WithBot ℚ))

/-- The greedy matching loop of `PersonTracker.update`.  Each
iteration takes the matrix's first global maximum; a maximum below 0
ends the loop.  A matched person is updated in place, and the matched
row and column are masked with `-1`.  `none` models the `ValueError`
that `np.argmax` raises on a matrix with no entries (the fuel, chosen
larger than the possible number of iterations, never runs out on the
paths the theorems speak about). -/
def greedy (dets : List Detection) :
    ℕ → Dict Person → SimMatrix → ℚ → Option (List (ℕ × String)) × Dict Person
  | 0, people, _, _ => (none, people)
  | fuel + 1, people, m, now =>
    match argmaxMat m with
    | none => (none, people)
    | some (i, j, v) =>
      if v < 0 then (some [], people)
      else
        match people.get? i, dets.get? j with
        | some (person_id, person), some d =>
          let person' := Person.update person (detBbox d) (detConfidence d) now
          match greedy dets fuel (people.set i (person_id, person'))
              (maskCol (maskRow m i) j) now with
          | (some ms, people') => (some ((j, person_id) :: ms), people')
          | (none, people') => (none, people')
        | _, _ => (none, people)

/-- The new-person loops of `PersonTracker.update` (both the
empty-store loop and the final unmatched-detections loop): every
person-class detection among `idxs` spawns a fresh person.  `fresh k`
models the `uuid.uuid4()` of the `k`-th creation. -/
def createNew (dets : List Detection) (idxs : List ℕ) (now : ℚ)
    (fresh : ℕ → String) (k : ℕ) : List (ℕ × String) × Dict Person :=
  match idxs with
  | [] => ([], [])
  | i :: rest =>
    match dets.get? i with
    | some d =>
      if isPersonDet d then
        let person := Person.init (fresh k) (detBbox d) (detConfidence d) now
        let r := createNew dets rest now fresh (k + 1)
        ((i, fresh k) :: r.1, (fresh k, person) :: r.2)
      else createNew dets rest now fresh k
    | none => createNew dets rest now fresh k

/-- `PersonTracker.update`.  Returns the detection→person assignment
(`none` models the uncaught `ValueError` on an empty similarity
matrix) together with the mutated tracker state. -/
def PersonTracker.update (tr : PersonTracker) (dets : List Detection) (now : ℚ)
    (fresh : ℕ → String) : Option (List (ℕ × String)) × PersonTracker :=
  let people := evictStale tr.people now tr.person_memory
  if people = [] then
    let r := createNew dets (List.range dets.length) now fresh 0
    (some r.1, { tr with people := r.2 })
  else
    let m := simMatrix tr people dets
    match greedy dets (people.length * dets.length + 1) people m now with
    | (some ms, people') =>
      let unmatched :=
        (List.range dets.length).filter (fun i => ! (ms.map Prod.fst).contains i)
      let r := createNew dets unmatched now fresh 0
      (some (ms ++ r.1), { tr with people := people' ++ r.2 })
    | (none, people') => (none, { tr with people := people' })

/-- `PersonTracker.check_camera_alert_limit`.  Returns the allow/deny
verdict together with the mutated state: the camera's entry is created
if absent; outside a cooldown the timestamp list is pruned to the
rate-limit window, and reaching the limit starts a cooldown. -/
def PersonTracker.check_camera_alert_limit (tr : PersonTracker) (camera_id : String)
    (now : ℚ) : Bool × PersonTracker :=
  let h0 := tr.camera_alert_history
  let h1 := if (dlookup h0 camera_id).isSome then h0
            else dinsert h0 camera_id ⟨[], 0⟩
  let ch := (dlookup h1 camera_id).getD ⟨[], 0⟩
  if now < ch.cooldown_until then
    (false, { tr with camera_alert_history := h1 })
  else
    let pruned := ch.alerts.filter (fun t => decide (now - t < tr.alert_interval))
    if pruned.length ≥ tr.max_alerts_per_interval then
      (false, { tr with
        camera_alert_history :=
          dinsert h1 camera_id ⟨pruned, now + tr.camera_cooldown_period⟩ })
    else
      (true, { tr with
        camera_alert_history := dinsert h1 camera_id ⟨pruned, ch.cooldown_until⟩ })

/-- `self.camera_alert_history[camera_id]["alerts"].append(time.time())`,
guarded by `if camera_id in self.camera_alert_history`. -/
def appendCamera (tr : PersonTracker) (camera_id : String) (now : ℚ) : PersonTracker :=
  match dlookup tr.camera_alert_history camera_id with
  | some ch =>
    { tr with
      camera_alert_history :=
        dinsert tr.camera_alert_history camera_id
          ⟨ch.alerts ++ [now], ch.cooldown_until⟩ }
  | none => tr

/-- The direct person_map scan of the pose branch of `filter_alerts`:
the first map entry whose person id is still a key of the store. -/
def directMapMatch (person_map : List (ℕ × String)) (people : Dict Person) :
    Option String :=
  (person_map.find? (fun e => (dlookup people e.2).isSome)).map Prod.snd

/-- The IoU fallback scan of `filter_alerts`: the tracked person of
strictly maximal IoU against `bbox`, provided it beats both the
running best (initially 0) and the IoU threshold. -/
def iouBestMatch (people : Dict Person) (bbox : Box) (thr : ℚ) : Option String :=
  (people.foldl
    (fun best kv =>
      let iou := calcIoU kv.2.bbox bbox
      if iou > best.2 ∧ iou > thr then (some kv.1, iou) else best)
    (none, 0)).1

/-- Person resolution for a pose alert: the direct person_map match
when one exists, otherwise the IoU fallback. -/
def resolvePosePerson (people : Dict Person) (person_map : List (ℕ × String))
    (bbox : Box) (thr : ℚ) : Option String :=
  match directMapMatch person_map people with
  | some pid => some pid
  | none => iouBestMatch people bbox thr

/-- The per-type threshold of the pose branch: `effective_interval`
(the base interval tripled when the alert carries "Hands_Up") for the
"Hands_Up" type itself, the plain base interval otherwise. -/
def poseThreshold (alert_types : List String) (alert_interval : ℚ) (t : String) : ℚ :=
  if t == "Hands_Up" then
    alert_interval * (if alert_types.contains "Hands_Up" then 3 else 1)
  else alert_interval

/-- `for alert_type in alert_types: person.record_alert(alert_type)`. -/
def recordAll (p : Person) (g : GlobalTable) (alert_types : List String)
    (now : ℚ) : Person × GlobalTable :=
  alert_types.foldl (fun pg t => Person.record_alert pg.1 pg.2 t now) (p, g)

/-- An alert-service response, restricted to the keys `filter_alerts`
reads.  `SourceID` and `Detection_type` model possibly-absent keys;
`Image_bb` models a possibly-absent or empty list. -/
structure AlertResponse where
  type_of_alert : String
  SourceID : Option String
  Detection_type : Option String
  Image_bb : List Box
deriving DecidableEq, Repr

/-- `{**alert_response, "type_of_alert": "No_Alert"}`. -/
def sentinel (a : AlertResponse) : AlertResponse :=
  { a with type_of_alert := "No_Alert" }

/-- The loop of the object-detection branch of `filter_alerts` over
the alert's bounding boxes: each box is matched by IoU; a matched
person either passes all its per-type cooldowns (alerts recorded,
camera history appended) or flips the suppression flag. -/
def objectsLoop (camera_id : String) (alert_types : List String) (now : ℚ) (hour : ℕ) :
    List Box → PersonTracker → GlobalTable → Bool →
    PersonTracker × GlobalTable × Bool
  | [], tr, g, sup => (tr, g, sup)
  | bbox :: rest, tr, g, sup =>
    match iouBestMatch tr.people bbox tr.min_iou_threshold with
    | some pid =>
      match dlookup tr.people pid with
      | some person =>
        if alert_types.all (fun t => person.can_alert g t tr.alert_interval now hour) then
          let pg := recordAll person g alert_types now
          let tr1 := appendCamera { tr with people := dinsert tr.people pid pg.1 }
            camera_id now
          objectsLoop camera_id alert_types now hour rest tr1 pg.2 sup
        else objectsLoop camera_id alert_types now hour rest tr g true
      | none => objectsLoop camera_id alert_types now hour rest tr g sup
    | none => objectsLoop camera_id alert_types now hour rest tr g sup

/-- `PersonTracker.filter_alerts`.  `now` is `time.time()`, `hour` is
`datetime.now().hour`, `rand` is the `np.random.random()` draw, and
`fresh` is the uuid of the person the anonymous pose path may create.
Returns the (possibly sentinel) response with the mutated tracker
state and global suppression table. -/
def PersonTracker.filter_alerts (tr : PersonTracker) (g : GlobalTable)
    (a : AlertResponse) (person_map : List (ℕ × String)) (now : ℚ) (hour : ℕ)
    (rand : ℚ) (fresh : String) : AlertResponse × PersonTracker × GlobalTable :=
  if a.type_of_alert = "No_Alert" then (a, tr, g)
  else
    let camera_id := a.SourceID.getD "unknown"
    let ck := tr.check_camera_alert_limit camera_id now
    if ¬ ck.1 then (sentinel a, ck.2, g)
    else
      let tr1 := ck.2
      let alert_types := pySplitComma a.type_of_alert
      if alert_types.contains "Hands_Up" ∧ (8 ≤ hour ∧ hour ≤ 18) ∧ rand < 7/10 then
        (sentinel a, tr1, g)
      else if a.Detection_type = some "poses" then
        if a.Image_bb ≠ [] then
          let poses_bbox := a.Image_bb.headD ⟨0, 0, 0, 0⟩
          match resolvePosePerson tr1.people person_map poses_bbox tr1.min_iou_threshold with
          | some best_match_id =>
            match dlookup tr1.people best_match_id with
            | some person =>
              if alert_types.all (fun t =>
                  person.can_alert g t (poseThreshold alert_types tr1.alert_interval t)
                    now hour) then
                let pg := recordAll person g alert_types now
                let tr2 := { tr1 with people := dinsert tr1.people best_match_id pg.1 }
                (a, appendCamera tr2 camera_id now, pg.2)
              else (sentinel a, tr1, g)
            | none =>
              -- unreachable: a resolved id is always a key of the store
              (sentinel a, tr1, g)
          | none =>
            match alert_types.find? (fun t =>
                match dlookup g t with
                | some e => decide (now - e.last_alert_time < e.min_interval)
                | none => false) with
            | some _ => (sentinel a, tr1, g)
            | none =>
              let person := Person.init fresh poses_bbox 1 now
              let pg := recordAll person g alert_types now
              let tr2 := { tr1 with people := dinsert tr1.people fresh pg.1 }
              (a, appendCamera tr2 camera_id now, pg.2)
        else (a, appendCamera tr1 camera_id now, g)
      else if a.Detection_type = some "objects" then
        let r := objectsLoop camera_id alert_types now hour a.Image_bb tr1 g false
        if r.2.2 then (sentinel a, r.1, r.2.1)
        else (a, appendCamera r.1 camera_id now, r.2.1)
      else (a, appendCamera tr1 camera_id now, g)

/-- The movement score described by the spec (claim C8): the average
over consecutive history-sample pairs, i.e. the pair sum divided by
the number of pairs.  Stated from the spec's words, for comparison
with `calcMovementScore`. -/
def claimPairAverage (hist : List (ℚ × ℚ × ℚ)) : ℚ :=
  if hist.length < 2 then 0 else movementSum hist / ((hist.length : ℚ) - 1)

/-- The assignment property of claim C1 for the mapping returned by
`PersonTracker.update`: every entry is a person-class detection index,
every person-class detection index has an entry, and neither detection
indices nor person ids repeat. -/
def AssignmentOK (dets : List Detection) (ms : List (ℕ × String)) : Prop :=
  (∀ i pid, (i, pid) ∈ ms → ∃ d, dets.get? i = some d ∧ isPersonDet d = true)
  ∧ (∀ i d, dets.get? i = some d → isPersonDet d = true → ∃ pid, (i, pid) ∈ ms)
  ∧ (ms.map Prod.fst).Nodup
  ∧ (ms.map Prod.snd).Nodup

/-- Two detections that the tracker cannot distinguish: same class
test, same effective bounding box, same effective confidence. -/
def DetSameView (d d' : Detection) : Prop :=
  isPersonDet d = isPersonDet d' ∧ detBbox d = detBbox d' ∧ detConfidence d = detConfidence d'

/-- Detection lists the tracker cannot distinguish, pointwise. -/
def DetsSameView (dets dets' : List Detection) : Prop :=
  List.Forall₂ DetSameView dets dets'

/-- An injective identifier supply for witnesses: `k` letters `a`. -/
def freshA : ℕ → String := fun k => String.mk (List.replicate k 'a')

/-- A person-class detection with no bounding box (claim C7). -/
def cxDetNoBox : Detection := ⟨some "person", some 1, none⟩

/-- A person whose history holds one sample at the origin (claim C8). -/
def cxPerson8 : Person :=
  { Person.init "x" ⟨0, 0, 0, 0⟩ 0 0 with detection_history := [(0, 0, 0)] }

/-- A tracker whose camera `CAM1` already used its two-alert budget
(claims C2, C5). -/
def cxTrC : PersonTracker :=
  { PersonTracker.init with camera_alert_history := [("CAM1", ⟨[5000, 5100], 0⟩)] }

/-- An object-detection weapon alert on `CAM1` (claims C2, C5). -/
def cxAlertW : AlertResponse := ⟨"Weapon", some "CAM1", some "objects", [⟨0, 0, 5, 5⟩]⟩

/-- A pose weapon alert on `CAM1` (claim C6). -/
def cxAlertPose : AlertResponse :=
  ⟨"Weapon", some "CAM1", some "poses", [⟨100, 100, 150, 200⟩]⟩

/-- An object-detection weapon alert on a different camera, disjoint
from the pose alert's box (claim C6). -/
def cxAlertObj : AlertResponse :=
  ⟨"Weapon", some "CAM2", some "objects", [⟨300, 300, 320, 340⟩]⟩

/-- Claim C6, first call: a fresh system allows a pose weapon alert at
time 10000 (the global table gets stamped). -/
def cxStep1 : AlertResponse × PersonTracker × GlobalTable :=
  PersonTracker.filter_alerts PersonTracker.init GLOBAL_SUPPRESSION_init cxAlertPose
    [] 10000 3 1 "p1"

/-- Claim C6, second call: an objects weapon alert 5 seconds later on
another camera, with no resolvable tracked person. -/
def cxStep2 : AlertResponse × PersonTracker × GlobalTable :=
  PersonTracker.filter_alerts cxStep1.2.1 cxStep1.2.2 cxAlertObj [] 10005 3 1 "p2"

/-- A pose weapon alert on a third camera (claim C6's witness). -/
def cxAlertPose2 : AlertResponse :=
  ⟨"Weapon", some "CAM3", some "poses", [⟨300, 300, 320, 340⟩]⟩

/-- A person-class detection with a bounding box (claims C1, C4). -/
def cxDet1 : Detection := ⟨some "person", some 1, some ⟨10, 10, 50, 100⟩⟩

/-- Invariant of the matching loop: every non-negative matrix entry in
column `j` certifies a person-class detection at index `j`. -/
def SimOK (m : SimMatrix) (dets : List Detection) : Prop :=
  ∀ i j v, entry? m i j = some v → 0 ≤ v →
    ∃ d, dets.get? j = some d ∧ isPersonDet d = true

/-- Columns already matched: every entry there is negative. -/
def ColsDead (m : SimMatrix) (J : List ℕ) : Prop :=
  ∀ j ∈ J, ∀ i v, entry? m i j = some v → v < 0

/-- Rows already matched: every entry there is negative. -/
def RowsDead (m : SimMatrix) (I : List ℕ) : Prop :=
  ∀ i ∈ I, ∀ j v, entry? m i j = some v → v < 0

/-- The number of non-negative entries of a similarity matrix: an
upper bound on the iterations of the matching loop. -/
def countNonNeg (m : SimMatrix) : ℕ :=
  (m.map (fun row => row.countP (fun v => decide ((0 : WithBot ℚ) ≤ v)))).sum

/-! ## Helper lemmas -/

theorem dlookup_dinsert_self {α : Type} (d : Dict α) (k : String) (v : α) :
    dlookup (dinsert d k v) k = some v := by
  induction d with
  | nil => simp [dinsert, dlookup]
  | cons kv rest ih =>
    by_cases h : kv.1 = k
    · simp [dinsert, dlookup, h]
    · simp [dinsert, dlookup, h, ih]

theorem dlookup_dinsert_ne {α : Type} (d : Dict α) (k k' : String) (v : α)
    (h : k ≠ k') : dlookup (dinsert d k v) k' = dlookup d k' := by
  induction d with
  | nil => simp [dinsert, dlookup, h]
  | cons kv rest ih =>
    by_cases hk : kv.1 = k
    · simp [dinsert, dlookup, hk, h]
    · simp [dinsert, dlookup, hk, ih]

theorem all_eq_false_of_mem {α : Type} {l : List α} {f : α → Bool} {x : α}
    (hx : x ∈ l) (hf : f x = false) : l.all f = false := by
  cases hal : l.all f with
  | false => rfl
  | true => exact absurd (List.all_eq_true.mp hal x hx) (by simp [hf])

theorem find?_isSome_of_mem {α : Type} {l : List α} {f : α → Bool} {x : α}
    (hx : x ∈ l) (hf : f x = true) : (l.find? f).isSome = true := by
  cases hfind : l.find? f with
  | some a => rfl
  | none => exact absurd hf (by simpa using List.find?_eq_none.mp hfind x hx)

theorem find?_first {α : Type} {l : List α} {f : α → Bool} {a : α}
    (h : l.find? f = some a) :
    ∃ k, l.get? k = some a ∧ f a = true ∧
      ∀ k' b, k' < k → l.get? k' = some b → f b = false := by
  induction l with
  | nil => simp [List.find?] at h
  | cons x rest ih =>
    by_cases hfx : f x = true
    · rw [List.find?_cons_of_pos _ hfx] at h
      cases h
      exact ⟨0, rfl, hfx, by intro k' b hk' _; omega⟩
    · rw [List.find?_cons_of_neg _ hfx] at h
      obtain ⟨k, hk, hfa, hmin⟩ := ih h
      refine ⟨k + 1, hk, hfa, ?_⟩
      intro k' b hk' hb
      cases k' with
      | zero =>
        cases hb
        simpa using hfx
      | succ k'' => exact hmin k'' b (by omega) hb

/-- `check_camera_alert_limit` only touches the camera history. -/
theorem check_camera_alert_limit_shape (tr : PersonTracker) (camera_id : String)
    (now : ℚ) :
    ∃ h, (tr.check_camera_alert_limit camera_id now).2 =
      { tr with camera_alert_history := h } := by
  unfold PersonTracker.check_camera_alert_limit
  dsimp only
  split_ifs <;> exact ⟨_, rfl⟩

/-- A type under active global suppression makes `can_alert` return
`false` regardless of the threshold. -/
theorem can_alert_false_of_global_block (p : Person) (g : GlobalTable)
    (t : String) (thr now : ℚ) (hour : ℕ) (e : GlobalEntry)
    (he : dlookup g t = some e) (hlt : now - e.last_alert_time < e.min_interval) :
    Person.can_alert p g t thr now hour = false := by
  unfold Person.can_alert
  rw [he]
  simp [hlt]

/-! ## Claim C3: per-person cooldown monotonicity -/

/-- C3: if an alert of type `T` for person `P` is recorded at `t0`,
then an alert of type `T` checked against the same (recorded) `P` at
`t0 + ε` is denied whenever `ε` is below `P`'s dynamic interval for
`T`; and the dynamic interval is the base interval times
`min(5, 1 + 0.25·count)` times 1.5 for movement score above the
activity threshold times 1.5 during business hours. -/
theorem can_alert_cooldown_monotonic :
    (∀ (p : Person) (t : String) (base : ℚ) (hour : ℕ),
      dynamicInterval p t base hour =
        base * min 5 (1 + (1/4) * (((dlookup p.alert_count t).getD 0 : ℕ) : ℚ))
          * (if p.movement_score > 10 then 3/2 else 1)
          * (if 8 ≤ hour ∧ hour ≤ 18 then 3/2 else 1))
    ∧ (∀ (p : Person) (g g2 : GlobalTable) (t : String) (base t0 ε : ℚ) (hour : ℕ),
      ε < dynamicInterval (Person.record_alert p g t t0).1 t base hour →
      Person.can_alert (Person.record_alert p g t t0).1 g2 t base (t0 + ε) hour = false) := by
  constructor
  · intro p t base hour
    unfold dynamicInterval
    dsimp only
    rcases Nat.eq_zero_or_pos ((dlookup p.alert_count t).getD 0) with h | h
    · rw [h]
      norm_num
    · rw [if_pos h]
      split_ifs <;> ring
  · intro p g g2 t base t0 ε hour hlt
    have hlast : (dlookup (Person.record_alert p g t t0).1.last_alert_time t).getD 0 = t0 := by
      unfold Person.record_alert
      dsimp only
      simp [dlookup_dinsert_self]
    have hdec : decide (t0 + ε - (dlookup (Person.record_alert p g t t0).1.last_alert_time t).getD 0
        ≥ dynamicInterval (Person.record_alert p g t t0).1 t base hour) = false := by
      rw [hlast]
      simp only [decide_eq_false_iff_not]
      intro hge
      have heq : t0 + ε - t0 = ε := by ring
      rw [heq] at hge
      exact absurd hlt (not_lt.mpr hge)
    cases hg : dlookup g2 t with
    | some e =>
      simp only [Person.can_alert, hg]
      split_ifs
      · rfl
      · exact hdec
    | none =>
      simp only [Person.can_alert, hg]
      split_ifs <;> first | rfl | exact hdec

/-- Witness for C3: a person recorded for "Weapon" at time 1000 is
denied 5 seconds later (the dynamic interval is 1500). -/
theorem can_alert_cooldown_monotonic_witness :
    ((5 : ℚ) < dynamicInterval
        (Person.record_alert (Person.init "w" ⟨0, 0, 10, 10⟩ 1 0)
          GLOBAL_SUPPRESSION_init "Weapon" 1000).1 "Weapon" 1200 3)
    ∧ Person.can_alert
        (Person.record_alert (Person.init "w" ⟨0, 0, 10, 10⟩ 1 0)
          GLOBAL_SUPPRESSION_init "Weapon" 1000).1
        GLOBAL_SUPPRESSION_init "Weapon" 1200 (1000 + 5) 3 = false := by
  have h : (5 : ℚ) < dynamicInterval
      (Person.record_alert (Person.init "w" ⟨0, 0, 10, 10⟩ 1 0)
        GLOBAL_SUPPRESSION_init "Weapon" 1000).1 "Weapon" 1200 3 := by
    simp [dynamicInterval, Person.record_alert, Person.init, dlookup, dinsert]
    norm_num
  exact ⟨h, can_alert_cooldown_monotonic.2 _ _ _ _ _ _ _ _ h⟩

/-! ## Claim C5: camera rate limit and cooldown -/

theorem check_camera_false_of_cooldown (tr : PersonTracker) (camera_id : String)
    (now : ℚ) (ch : CameraHistory)
    (hch : dlookup tr.camera_alert_history camera_id = some ch)
    (hcd : now < ch.cooldown_until) :
    (tr.check_camera_alert_limit camera_id now).1 = false := by
  unfold PersonTracker.check_camera_alert_limit
  dsimp only
  simp only [hch, Option.isSome_some, if_true, Option.getD_some]
  rw [if_pos hcd]

/-- C5: a camera inside its cooldown window is denied by
`filter_alerts` no matter the rest of the state; reaching the
rate-limit budget (pruned timestamp list) makes
`check_camera_alert_limit` deny and start a fresh cooldown; and any
camera-limit denial surfaces as the `No_Alert` sentinel. -/
theorem camera_rate_limit_cooldown :
    (∀ (tr : PersonTracker) (g : GlobalTable) (a : AlertResponse) person_map
        (now : ℚ) (hour : ℕ) (rand : ℚ) (fresh : String) (ch : CameraHistory),
      dlookup tr.camera_alert_history (a.SourceID.getD "unknown") = some ch →
      now < ch.cooldown_until →
      a.type_of_alert ≠ "No_Alert" →
      (PersonTracker.filter_alerts tr g a person_map now hour rand fresh).1 = sentinel a)
    ∧ (∀ (tr : PersonTracker) (camera_id : String) (now : ℚ) (ch : CameraHistory),
      dlookup tr.camera_alert_history camera_id = some ch →
      ¬ now < ch.cooldown_until →
      tr.max_alerts_per_interval ≤
        (ch.alerts.filter (fun t => decide (now - t < tr.alert_interval))).length →
      (tr.check_camera_alert_limit camera_id now).1 = false
      ∧ dlookup (tr.check_camera_alert_limit camera_id now).2.camera_alert_history camera_id
          = some ⟨ch.alerts.filter (fun t => decide (now - t < tr.alert_interval)),
                  now + tr.camera_cooldown_period⟩)
    ∧ (∀ (tr : PersonTracker) (g : GlobalTable) (a : AlertResponse) person_map
        (now : ℚ) (hour : ℕ) (rand : ℚ) (fresh : String),
      (tr.check_camera_alert_limit (a.SourceID.getD "unknown") now).1 = false →
      a.type_of_alert ≠ "No_Alert" →
      (PersonTracker.filter_alerts tr g a person_map now hour rand fresh).1 = sentinel a) := by
  have prop : ∀ (tr : PersonTracker) (g : GlobalTable) (a : AlertResponse) person_map
      (now : ℚ) (hour : ℕ) (rand : ℚ) (fresh : String),
      (tr.check_camera_alert_limit (a.SourceID.getD "unknown") now).1 = false →
      a.type_of_alert ≠ "No_Alert" →
      (PersonTracker.filter_alerts tr g a person_map now hour rand fresh).1 = sentinel a := by
    intro tr g a person_map now hour rand fresh hck hne
    unfold PersonTracker.filter_alerts
    dsimp only
    rw [if_neg hne, if_pos (by simp [hck])]
  refine ⟨?_, ?_, prop⟩
  · intro tr g a person_map now hour rand fresh ch hch hcd hne
    exact prop tr g a person_map now hour rand fresh
      (check_camera_false_of_cooldown tr _ now ch hch hcd) hne
  · intro tr camera_id now ch hch hcd hlen
    unfold PersonTracker.check_camera_alert_limit
    dsimp only
    simp only [hch, Option.isSome_some, if_true, Option.getD_some]
    rw [if_neg hcd, if_pos hlen]
    exact ⟨rfl, dlookup_dinsert_self _ _ _⟩

/-- Witness for C5: `CAM1` with two in-window alerts is denied and put
in a one-hour cooldown. -/
theorem camera_rate_limit_cooldown_witness :
    (dlookup cxTrC.camera_alert_history "CAM1" = some ⟨[5000, 5100], 0⟩
      ∧ ¬ (5200 : ℚ) < (0 : ℚ)
      ∧ cxTrC.max_alerts_per_interval ≤
          (([5000, 5100] : List ℚ).filter
            (fun t => decide ((5200 : ℚ) - t < cxTrC.alert_interval))).length)
    ∧ ((cxTrC.check_camera_alert_limit "CAM1" 5200).1 = false
      ∧ dlookup (cxTrC.check_camera_alert_limit "CAM1" 5200).2.camera_alert_history "CAM1"
          = some ⟨(([5000, 5100] : List ℚ).filter
              (fun t => decide ((5200 : ℚ) - t < cxTrC.alert_interval))),
              5200 + cxTrC.camera_cooldown_period⟩) := by
  have h1 : dlookup cxTrC.camera_alert_history "CAM1" = some ⟨[5000, 5100], 0⟩ := by
    simp [cxTrC, PersonTracker.init, dlookup]
  have h2 : ¬ (5200 : ℚ) < (0 : ℚ) := by norm_num
  have h3 : cxTrC.max_alerts_per_interval ≤
      (([5000, 5100] : List ℚ).filter
        (fun t => decide ((5200 : ℚ) - t < cxTrC.alert_interval))).length := by
    simp [cxTrC, PersonTracker.init]
    norm_num
  exact ⟨⟨h1, h2, h3⟩,
    camera_rate_limit_cooldown.2.1 cxTrC "CAM1" 5200 ⟨[5000, 5100], 0⟩ h1 h2 h3⟩

/-! ## Claim C9: `update` on an empty detection list -/

theorem argmaxMat_of_nil_rows (rows : SimMatrix) (h : ∀ r ∈ rows, r = ([] : List (WithBot ℚ))) :
    argmaxMat rows = none := by
  induction rows with
  | nil => rfl
  | cons r rest ih =>
    have hr : r = [] := h r (by simp)
    have hrest := ih (fun r' hr' => h r' (by simp [hr']))
    rw [hr]
    unfold argmaxMat
    rw [hrest]
    rfl

theorem greedy_of_argmax_none (dets : List Detection) (fuel : ℕ) (people : Dict Person)
    (m : SimMatrix) (now : ℚ) (hm : argmaxMat m = none) :
    greedy dets (fuel + 1) people m now = (none, people) := by
  unfold greedy
  rw [hm]

/-- C9: with at least one tracked person surviving eviction, `update`
on an empty detection list hits `np.argmax` of an empty similarity
matrix and fails instead of returning the empty mapping. -/
theorem update_empty_detections_fails :
    ∀ (tr : PersonTracker) (now : ℚ) (fresh : ℕ → String),
      evictStale tr.people now tr.person_memory ≠ [] →
      (PersonTracker.update tr [] now fresh).1 = none := by
  intro tr now fresh h
  unfold PersonTracker.update
  dsimp only
  rw [if_neg h]
  have hm : argmaxMat (simMatrix tr (evictStale tr.people now tr.person_memory) []) = none := by
    apply argmaxMat_of_nil_rows
    intro r hr
    unfold simMatrix at hr
    obtain ⟨kv, _, hkv⟩ := List.mem_map.mp hr
    simp at hkv
    exact hkv
  have hfuel : (evictStale tr.people now tr.person_memory).length * ([] : List Detection).length + 1
      = 0 + 1 := by simp
  rw [hfuel, greedy_of_argmax_none _ _ _ _ _ hm]

/-- Witness for C9: a tracker holding one recently-seen person fails
on an empty detection batch. -/
theorem update_empty_detections_fails_witness :
    evictStale [("p", Person.init "p" ⟨0, 0, 10, 10⟩ 1 100)] 100 3600 ≠ []
    ∧ (PersonTracker.update
        { PersonTracker.init with people := [("p", Person.init "p" ⟨0, 0, 10, 10⟩ 1 100)] }
        [] 100 freshA).1 = none := by
  have h : evictStale
      ({ PersonTracker.init with
        people := [("p", Person.init "p" ⟨0, 0, 10, 10⟩ 1 100)] } : PersonTracker).people
      100
      ({ PersonTracker.init with
        people := [("p", Person.init "p" ⟨0, 0, 10, 10⟩ 1 100)] } : PersonTracker).person_memory
      ≠ [] := by
    simp [evictStale, Person.init, PersonTracker.init]
  refine ⟨?_, update_empty_detections_fails _ 100 freshA h⟩
  simpa [PersonTracker.init] using h

/-! ## Claim C10: pose-alert person resolution order -/

/-- C10: with any direct match available, the pose branch resolves to
the first `person_map` entry whose id is still stored — for every
alert bounding box alike, so no box comparison is involved — and the
IoU fallback is consulted exactly when no map entry refers to a stored
person. -/
theorem pose_person_resolution :
    (∀ (people : Dict Person) (person_map : List (ℕ × String)) (thr : ℚ) (pid : String),
      directMapMatch person_map people = some pid →
      (∀ b : Box, resolvePosePerson people person_map b thr = some pid)
      ∧ ∃ k i, person_map.get? k = some (i, pid)
          ∧ (dlookup people pid).isSome = true
          ∧ ∀ k' e', k' < k → person_map.get? k' = some e' →
              (dlookup people e'.2).isSome = false)
    ∧ (∀ (people : Dict Person) (person_map : List (ℕ × String)) (thr : ℚ) (b : Box),
      directMapMatch person_map people = none →
      resolvePosePerson people person_map b thr = iouBestMatch people b thr) := by
  constructor
  · intro people person_map thr pid hdirect
    refine ⟨?_, ?_⟩
    · intro b
      unfold resolvePosePerson
      rw [hdirect]
    · unfold directMapMatch at hdirect
      obtain ⟨e, hfind, he⟩ := Option.map_eq_some'.mp hdirect
      obtain ⟨k, hk, hpred, hmin⟩ := find?_first hfind
      refine ⟨k, e.1, ?_, ?_, hmin⟩
      · rw [← he]
        simpa using hk
      · rw [← he]
        exact hpred
  · intro people person_map thr b hdirect
    unfold resolvePosePerson
    rw [hdirect]

/-- Witness for C10: a map whose first entry is a dangling id and
whose second refers to the stored person resolves to the second
entry, for two different boxes alike. -/
theorem pose_person_resolution_witness :
    directMapMatch [(0, "zz"), (1, "p1")] [("p1", Person.init "p1" ⟨0, 0, 10, 10⟩ 1 0)]
        = some "p1"
    ∧ (∀ b : Box,
        resolvePosePerson [("p1", Person.init "p1" ⟨0, 0, 10, 10⟩ 1 0)]
          [(0, "zz"), (1, "p1")] b (1/10) = some "p1") := by
  have h : directMapMatch [(0, "zz"), (1, "p1")]
      [("p1", Person.init "p1" ⟨0, 0, 10, 10⟩ 1 0)] = some "p1" := by
    simp [directMapMatch, dlookup, List.find?]
  exact ⟨h, (pose_person_resolution.1 _ _ (1/10) _ h).1⟩

/-! ## Claim C8: position history and movement score -/

/-- C8 (amended): after a match the history is the previous samples
plus the new `(centerX, centerY, now)` sample with the oldest dropped
once the window of 10 is full; the recomputed movement score is the
consecutive-pair sum of displacement over time difference divided by
the number of history *samples* (not pairs), and 0 for fewer than 2
samples. -/
theorem person_update_history_movement :
    ∀ (p : Person) (bbox : Box) (conf now : ℚ),
      p.detection_history.length ≤ 10 →
      (Person.update p bbox conf now).detection_history =
        (p.detection_history ++ [((bbox.x1 + bbox.x2) / 2, (bbox.y1 + bbox.y2) / 2, now)]).drop
          ((p.detection_history.length + 1) - min 10 (p.detection_history.length + 1))
      ∧ (Person.update p bbox conf now).detection_history.length ≤ 10
      ∧ ((Person.update p bbox conf now).detection_history.length < 2 →
          (Person.update p bbox conf now).movement_score = 0)
      ∧ (2 ≤ (Person.update p bbox conf now).detection_history.length →
          (Person.update p bbox conf now).movement_score =
            movementSum (Person.update p bbox conf now).detection_history /
              ((Person.update p bbox conf now).detection_history.length : ℚ)) := by
  intro p bbox conf now hlen
  have hhist : (Person.update p bbox conf now).detection_history =
      (p.detection_history ++ [((bbox.x1 + bbox.x2) / 2, (bbox.y1 + bbox.y2) / 2, now)]).drop
        ((p.detection_history.length + 1) - min 10 (p.detection_history.length + 1)) := by
    unfold Person.update
    dsimp only
    by_cases h : (p.detection_history ++
        [((bbox.x1 + bbox.x2) / 2, (bbox.y1 + bbox.y2) / 2, now)]).length > 10
    · rw [if_pos h]
      have h10 : p.detection_history.length = 10 := by
        simp at h
        omega
      rw [← List.drop_one]
      congr 1
      omega
    · rw [if_neg h]
      have h0 : (p.detection_history.length + 1) - min 10 (p.detection_history.length + 1) = 0 := by
        simp at h
        omega
      rw [h0, List.drop_zero]
  have hlen2 : (Person.update p bbox conf now).detection_history.length ≤ 10 := by
    rw [hhist]
    simp
    omega
  have hms : (Person.update p bbox conf now).movement_score =
      calcMovementScore (Person.update p bbox conf now).detection_history := by
    unfold Person.update
    dsimp only
  refine ⟨hhist, hlen2, ?_, ?_⟩
  · intro hlt
    rw [hms]
    unfold calcMovementScore
    rw [if_pos hlt]
  · intro hge
    rw [hms]
    unfold calcMovementScore
    rw [if_neg (by omega)]

/-- Counterexample for C8 as stated: one prior sample at the origin,
a new sample at distance 5 one second later — the code's score is
5/2 (divides by the 2 samples), the claim's pair average is 5. -/
theorem movement_score_divisor_cx :
    (Person.update cxPerson8 ⟨0, 6, 6, 2⟩ 1 1).movement_score = 5/2
    ∧ claimPairAverage (Person.update cxPerson8 ⟨0, 6, 6, 2⟩ 1 1).detection_history = 5
    ∧ ((5 : ℚ)/2 ≠ 5) := by
  have hsq : ratSqrt 25 = 5 := by
    unfold ratSqrt
    rw [show ((25 : ℚ).num.toNat) = 25 by simp]
    norm_num [Nat.sqrt]
  have hh : (Person.update cxPerson8 ⟨0, 6, 6, 2⟩ 1 1).detection_history
      = [(0, 0, 0), (3, 4, 1)] := by
    simp [Person.update, cxPerson8, Person.init]
    norm_num
  refine ⟨?_, ?_, by norm_num⟩
  · have hthis : (Person.update cxPerson8 ⟨0, 6, 6, 2⟩ 1 1).movement_score
        = calcMovementScore [(0, 0, 0), (3, 4, 1)] := by
      simp [Person.update, cxPerson8, Person.init]
      norm_num
    rw [hthis]
    unfold calcMovementScore
    simp [movementSum]
    norm_num [hsq]
  · rw [hh]
    unfold claimPairAverage
    simp [movementSum]
    norm_num [hsq]

/-- Witness for C8's amended theorem at the same concrete person. -/
theorem person_update_history_movement_witness :
    cxPerson8.detection_history.length ≤ 10
    ∧ (Person.update cxPerson8 ⟨0, 6, 6, 2⟩ 1 1).detection_history =
        (cxPerson8.detection_history ++
          [((((0 : ℚ) + 6) / 2), (((6 : ℚ) + 2) / 2), 1)]).drop
          ((cxPerson8.detection_history.length + 1) -
            min 10 (cxPerson8.detection_history.length + 1)) := by
  have h : cxPerson8.detection_history.length ≤ 10 := by
    simp [cxPerson8, Person.init]
  exact ⟨h, (person_update_history_movement cxPerson8 ⟨0, 6, 6, 2⟩ 1 1 h).1⟩

/-! ## Claim C2: what a denied `filter_alerts` call mutates -/

/-- C2 (amended): on every denial outside the object-detection branch,
the person store and the global suppression table are untouched, and
the only state change is `check_camera_alert_limit`'s own bookkeeping
(ensuring the camera's entry, pruning its window, and — on a
rate-limit denial — starting the cooldown); that bookkeeping never
touches the person store. -/
theorem denied_filter_alerts_state (tr : PersonTracker) (g : GlobalTable)
    (a : AlertResponse) (person_map : List (ℕ × String)) (now : ℚ) (hour : ℕ)
    (rand : ℚ) (fresh : String)
    (hne : a.type_of_alert ≠ "No_Alert")
    (hobj : a.Detection_type ≠ some "objects")
    (hden : (PersonTracker.filter_alerts tr g a person_map now hour rand fresh).1.type_of_alert
      = "No_Alert") :
    (PersonTracker.filter_alerts tr g a person_map now hour rand fresh).2.1
      = (tr.check_camera_alert_limit (a.SourceID.getD "unknown") now).2
    ∧ (PersonTracker.filter_alerts tr g a person_map now hour rand fresh).2.2 = g
    ∧ (tr.check_camera_alert_limit (a.SourceID.getD "unknown") now).2.people = tr.people := by
  obtain ⟨hcam, hsh⟩ := check_camera_alert_limit_shape tr (a.SourceID.getD "unknown") now
  refine ?_
  unfold PersonTracker.filter_alerts at hden ⊢
  rw [if_neg hne] at hden ⊢
  dsimp only at hden ⊢
  by_cases hck : (tr.check_camera_alert_limit (a.SourceID.getD "unknown") now).1 = true
  · rw [if_neg (by simpa using hck)] at hden ⊢
    by_cases hrand : (pySplitComma a.type_of_alert).contains "Hands_Up"
        ∧ (8 ≤ hour ∧ hour ≤ 18) ∧ rand < 7/10
    · rw [if_pos hrand] at hden ⊢
      exact ⟨rfl, rfl, by rw [hsh]⟩
    · rw [if_neg hrand] at hden ⊢
      by_cases hpose : a.Detection_type = some "poses"
      · rw [if_pos hpose] at hden ⊢
        by_cases hbb : a.Image_bb ≠ []
        · rw [if_pos hbb] at hden ⊢
          rcases hres : resolvePosePerson
              (tr.check_camera_alert_limit (a.SourceID.getD "unknown") now).2.people
              person_map (a.Image_bb.headD ⟨0, 0, 0, 0⟩)
              (tr.check_camera_alert_limit (a.SourceID.getD "unknown") now).2.min_iou_threshold
            with _ | pid
          · rw [hres] at hden
            dsimp only at hden ⊢
            rcases hfind : (pySplitComma a.type_of_alert).find? (fun t =>
                match dlookup g t with
                | some e => decide (now - e.last_alert_time < e.min_interval)
                | none => false) with _ | t
            · rw [hfind] at hden
              dsimp only at hden ⊢
              exact absurd hden hne
            · exact ⟨rfl, rfl, by rw [hsh]⟩
          · rw [hres] at hden
            dsimp only at hden ⊢
            rcases hlook : dlookup
                (tr.check_camera_alert_limit (a.SourceID.getD "unknown") now).2.people pid
              with _ | person
            · exact ⟨rfl, rfl, by rw [hsh]⟩
            · rw [hlook] at hden
              dsimp only at hden ⊢
              by_cases hall : ((pySplitComma a.type_of_alert).all fun t =>
                  person.can_alert g t
                    (poseThreshold (pySplitComma a.type_of_alert)
                      (tr.check_camera_alert_limit (a.SourceID.getD "unknown") now).2.alert_interval t)
                    now hour) = true
              · rw [if_pos hall] at hden ⊢
                exact absurd hden hne
              · rw [if_neg hall] at hden ⊢
                exact ⟨rfl, rfl, by rw [hsh]⟩
        · rw [if_neg hbb] at hden ⊢
          exact absurd hden hne
      · rw [if_neg hpose] at hden ⊢
        rw [if_neg hobj] at hden ⊢
        exact absurd hden hne
  · rw [if_pos (by simpa using hck)] at hden ⊢
    exact ⟨rfl, rfl, by rw [hsh]⟩

/-- Counterexample for C2 as stated: the third weapon alert on `CAM1`
is denied, yet the denial sets the camera's `cooldown_until` from 0 to
8800 (and the claim promised the camera state unchanged). -/
theorem denied_call_mutates_cooldown_cx :
    (PersonTracker.filter_alerts cxTrC GLOBAL_SUPPRESSION_init cxAlertW
        [] 5200 3 1 "f").1.type_of_alert = "No_Alert"
    ∧ dlookup cxTrC.camera_alert_history "CAM1" = some ⟨[5000, 5100], 0⟩
    ∧ dlookup (PersonTracker.filter_alerts cxTrC GLOBAL_SUPPRESSION_init cxAlertW
        [] 5200 3 1 "f").2.1.camera_alert_history "CAM1" = some ⟨[5000, 5100], 8800⟩ := by
  refine ⟨?_, by simp [cxTrC, PersonTracker.init, dlookup], ?_⟩
  · simp [PersonTracker.filter_alerts, PersonTracker.check_camera_alert_limit,
      cxTrC, cxAlertW, PersonTracker.init, GLOBAL_SUPPRESSION_init, dlookup, dinsert,
      sentinel, pySplitComma, splitCommaAux, objectsLoop, iouBestMatch, appendCamera]
    norm_num
  · simp [PersonTracker.filter_alerts, PersonTracker.check_camera_alert_limit,
      cxTrC, cxAlertW, PersonTracker.init, GLOBAL_SUPPRESSION_init, dlookup, dinsert,
      sentinel, pySplitComma, splitCommaAux, objectsLoop, iouBestMatch, appendCamera]
    norm_num [dlookup]

/-- Witness for C2's amended theorem: a pose alert denied by the
camera rate limit leaves persons and the global table untouched. -/
theorem denied_filter_alerts_state_witness :
    (cxAlertPose.type_of_alert ≠ "No_Alert"
      ∧ cxAlertPose.Detection_type ≠ some "objects"
      ∧ (PersonTracker.filter_alerts cxTrC GLOBAL_SUPPRESSION_init cxAlertPose
          [] 5200 3 1 "f").1.type_of_alert = "No_Alert")
    ∧ ((PersonTracker.filter_alerts cxTrC GLOBAL_SUPPRESSION_init cxAlertPose
          [] 5200 3 1 "f").2.2 = GLOBAL_SUPPRESSION_init
      ∧ (cxTrC.check_camera_alert_limit (cxAlertPose.SourceID.getD "unknown") 5200).2.people
          = cxTrC.people) := by
  have h1 : cxAlertPose.type_of_alert ≠ "No_Alert" := by simp [cxAlertPose]
  have h2 : cxAlertPose.Detection_type ≠ some "objects" := by simp [cxAlertPose]
  have h3 : (PersonTracker.filter_alerts cxTrC GLOBAL_SUPPRESSION_init cxAlertPose
      [] 5200 3 1 "f").1.type_of_alert = "No_Alert" := by
    simp [PersonTracker.filter_alerts, PersonTracker.check_camera_alert_limit,
      cxTrC, cxAlertPose, PersonTracker.init, GLOBAL_SUPPRESSION_init, dlookup, dinsert,
      sentinel, pySplitComma, splitCommaAux, appendCamera]
    norm_num
  obtain ⟨hA, hB, hC⟩ := denied_filter_alerts_state cxTrC GLOBAL_SUPPRESSION_init
    cxAlertPose [] 5200 3 1 "f" h1 h2 h3
  exact ⟨⟨h1, h2, h3⟩, hB, hC⟩

/-! ## Claim C6: global suppression across the system -/

/-- C6 (amended): after an alert of a globally-tabled type `T` is
allowed, every subsequent *pose* alert containing `T` with a nonempty
bounding-box list — on any camera, for a tracked or untracked person
alike — is denied while `now - globalLastAlertTime[T] <
globalMinInterval[T]`.  Object-detection alerts consult the global
table only through a resolved tracked person, so an objects alert with
no resolvable person bypasses the global layer (the counterexample). -/
theorem global_suppression_pose_denies (tr : PersonTracker) (g : GlobalTable)
    (a : AlertResponse) (person_map : List (ℕ × String)) (now : ℚ) (hour : ℕ)
    (rand : ℚ) (fresh : String) (T : String) (e : GlobalEntry)
    (hpose : a.Detection_type = some "poses")
    (hbb : a.Image_bb ≠ [])
    (hT : T ∈ pySplitComma a.type_of_alert)
    (he : dlookup g T = some e)
    (hlt : now - e.last_alert_time < e.min_interval) :
    (PersonTracker.filter_alerts tr g a person_map now hour rand fresh).1.type_of_alert
      = "No_Alert" := by
  by_cases hna : a.type_of_alert = "No_Alert"
  · unfold PersonTracker.filter_alerts
    rw [if_pos hna]
    exact hna
  · unfold PersonTracker.filter_alerts
    rw [if_neg hna]
    dsimp only
    by_cases hck : (tr.check_camera_alert_limit (a.SourceID.getD "unknown") now).1 = true
    · rw [if_neg (by simpa using hck)]
      by_cases hrand : (pySplitComma a.type_of_alert).contains "Hands_Up"
          ∧ (8 ≤ hour ∧ hour ≤ 18) ∧ rand < 7/10
      · rw [if_pos hrand]
        rfl
      · rw [if_neg hrand, if_pos hpose, if_pos hbb]
        rcases hres : resolvePosePerson
            (tr.check_camera_alert_limit (a.SourceID.getD "unknown") now).2.people
            person_map (a.Image_bb.headD ⟨0, 0, 0, 0⟩)
            (tr.check_camera_alert_limit (a.SourceID.getD "unknown") now).2.min_iou_threshold
          with _ | pid
        · dsimp only
          rcases hfind : (pySplitComma a.type_of_alert).find? (fun t =>
              match dlookup g t with
              | some e => decide (now - e.last_alert_time < e.min_interval)
              | none => false) with _ | t
          · refine absurd (find?_isSome_of_mem hT ?_) (by rw [hfind]; simp)
            show (match dlookup g T with
              | some e' => decide (now - e'.last_alert_time < e'.min_interval)
              | none => false) = true
            rw [he]
            simpa using hlt
          · rfl
        · dsimp only
          rcases hlook : dlookup
              (tr.check_camera_alert_limit (a.SourceID.getD "unknown") now).2.people pid
            with _ | person
          · rfl
          · dsimp only
            rw [if_neg ?_]
            · rfl
            · rw [all_eq_false_of_mem hT
                (can_alert_false_of_global_block person g T _ now hour e he hlt)]
              simp
    · rw [if_pos (by simpa using hck)]
      rfl

set_option maxHeartbeats 1600000 in
/-- Counterexample for C6 as stated: a pose weapon alert is allowed at
10000 (stamping the global table), and an objects weapon alert on a
different camera 5 seconds later — well inside the 600s global
interval — is still allowed because no tracked person resolves. -/
theorem global_suppression_not_process_wide_cx :
    cxStep1.1.type_of_alert = "Weapon"
    ∧ dlookup cxStep1.2.2 "Weapon" = some ⟨10000, 600, 1⟩
    ∧ ((10005 : ℚ) - 10000 < 600)
    ∧ cxStep2.1.type_of_alert = "Weapon" := by
  have h12 : cxStep1.1.type_of_alert = "Weapon"
      ∧ dlookup cxStep1.2.2 "Weapon" = some ⟨10000, 600, 1⟩ := by
    constructor <;>
      simp [cxStep1, cxAlertPose, PersonTracker.filter_alerts,
        PersonTracker.check_camera_alert_limit, PersonTracker.init,
        GLOBAL_SUPPRESSION_init, dlookup, dinsert, sentinel, pySplitComma, splitCommaAux,
        resolvePosePerson, directMapMatch, iouBestMatch, recordAll, Person.record_alert,
        Person.init, appendCamera] <;>
      norm_num [dlookup, dinsert]
  refine ⟨h12.1, h12.2, by norm_num, ?_⟩
  simp [cxStep2, cxStep1, cxAlertObj, cxAlertPose, PersonTracker.filter_alerts,
    PersonTracker.check_camera_alert_limit, PersonTracker.init,
    GLOBAL_SUPPRESSION_init, dlookup, dinsert, sentinel, pySplitComma, splitCommaAux,
    resolvePosePerson, directMapMatch, iouBestMatch, recordAll, Person.record_alert,
    Person.init, appendCamera, objectsLoop, calcIoU]
  norm_num [dlookup, dinsert, objectsLoop, iouBestMatch, calcIoU, appendCamera, sentinel]

set_option maxHeartbeats 1600000 in
/-- Witness for C6's amended theorem: with the global Weapon entry
stamped at 10000, a pose weapon alert on a third camera at 10005 is
denied. -/
theorem global_suppression_pose_denies_witness :
    (cxAlertPose2.Detection_type = some "poses"
      ∧ cxAlertPose2.Image_bb ≠ []
      ∧ "Weapon" ∈ pySplitComma cxAlertPose2.type_of_alert
      ∧ dlookup cxStep1.2.2 "Weapon" = some ⟨10000, 600, 1⟩
      ∧ (10005 : ℚ) - (10000 : ℚ) < (600 : ℚ))
    ∧ (PersonTracker.filter_alerts cxStep1.2.1 cxStep1.2.2 cxAlertPose2
        [] 10005 3 1 "p3").1.type_of_alert = "No_Alert" := by
  have h1 : cxAlertPose2.Detection_type = some "poses" := rfl
  have h2 : cxAlertPose2.Image_bb ≠ [] := by simp [cxAlertPose2]
  have h3 : "Weapon" ∈ pySplitComma cxAlertPose2.type_of_alert := by decide
  have h4 : dlookup cxStep1.2.2 "Weapon" = some ⟨10000, 600, 1⟩ := by
    simp [cxStep1, cxAlertPose, PersonTracker.filter_alerts,
      PersonTracker.check_camera_alert_limit, PersonTracker.init,
      GLOBAL_SUPPRESSION_init, dlookup, dinsert, sentinel, pySplitComma, splitCommaAux,
      resolvePosePerson, directMapMatch, iouBestMatch, recordAll, Person.record_alert,
      Person.init, appendCamera]
    all_goals norm_num [dlookup, dinsert]
  have h5 : (10005 : ℚ) - (10000 : ℚ) < (600 : ℚ) := by norm_num
  exact ⟨⟨h1, h2, h3, h4, h5⟩,
    global_suppression_pose_denies cxStep1.2.1 cxStep1.2.2 cxAlertPose2
      [] 10005 3 1 "p3" "Weapon" ⟨10000, 600, 1⟩ h1 h2 h3 h4 h5⟩

/-! ## Claim C7: detections without a bounding box -/

theorem detSameView_refl (d : Detection) : DetSameView d d :=
  ⟨rfl, rfl, rfl⟩

theorem detSameView_default {d : Detection} (h : d.bbox = none) :
    DetSameView d { d with bbox := some ⟨0, 0, 10, 10⟩ } := by
  refine ⟨rfl, ?_, rfl⟩
  unfold detBbox
  rw [h]
  rfl

theorem detsSameView_refl : ∀ dets : List Detection, DetsSameView dets dets := by
  intro dets
  induction dets with
  | nil => exact List.Forall₂.nil
  | cons x rest ih => exact List.Forall₂.cons (detSameView_refl x) ih

theorem detsSameView_set {dets : List Detection} {i : ℕ} {d d' : Detection}
    (hd : dets.get? i = some d) (h : DetSameView d d') :
    DetsSameView dets (dets.set i d') := by
  induction dets generalizing i with
  | nil => simp at hd
  | cons x rest ih =>
    cases i with
    | zero =>
      cases hd
      exact List.Forall₂.cons h (detsSameView_refl rest)
    | succ n =>
      exact List.Forall₂.cons (detSameView_refl x) (ih hd)

theorem detsSameView_get? {dets dets' : List Detection} (h : DetsSameView dets dets')
    (j : ℕ) :
    (dets.get? j = none ∧ dets'.get? j = none)
    ∨ ∃ a b, dets.get? j = some a ∧ dets'.get? j = some b ∧ DetSameView a b := by
  induction h generalizing j with
  | nil => exact Or.inl ⟨rfl, rfl⟩
  | cons hab _ ih =>
    cases j with
    | zero => exact Or.inr ⟨_, _, rfl, rfl, hab⟩
    | succ n => exact ih n

theorem similarity_congr (tr : PersonTracker) (p : Person) {a b : Detection}
    (h : DetSameView a b) : similarity tr p a = similarity tr p b := by
  obtain ⟨h1, h2, _⟩ := h
  unfold similarity
  dsimp only
  rw [h1, h2]

theorem simMatrix_congr (tr : PersonTracker) (people : Dict Person)
    {dets dets' : List Detection} (h : DetsSameView dets dets') :
    simMatrix tr people dets = simMatrix tr people dets' := by
  unfold simMatrix
  have hrow : ∀ p : Person,
      dets.map (fun d => similarity tr p d) = dets'.map (fun d => similarity tr p d) := by
    intro p
    induction h with
    | nil => rfl
    | cons hab _ ih => simp [ih, similarity_congr tr p hab]
  exact List.map_congr_left (fun kv _ => hrow kv.2)

theorem createNew_congr {dets dets' : List Detection} (h : DetsSameView dets dets') :
    ∀ (idxs : List ℕ) (now : ℚ) (fresh : ℕ → String) (k : ℕ),
      createNew dets idxs now fresh k = createNew dets' idxs now fresh k := by
  intro idxs
  induction idxs with
  | nil => intro now fresh k; rfl
  | cons i rest ih =>
    intro now fresh k
    unfold createNew
    rcases detsSameView_get? h i with ⟨hn, hn'⟩ | ⟨a, b, ha, hb, hab⟩
    · rw [hn, hn']
      exact ih now fresh k
    · rw [ha, hb]
      dsimp only
      rw [hab.1, hab.2.1, hab.2.2]
      by_cases hp : isPersonDet b = true
      · rw [if_pos hp, if_pos hp, ih]
      · rw [if_neg hp, if_neg hp]
        exact ih now fresh k

theorem greedy_congr {dets dets' : List Detection} (h : DetsSameView dets dets') :
    ∀ (fuel : ℕ) (people : Dict Person) (m : SimMatrix) (now : ℚ),
      greedy dets fuel people m now = greedy dets' fuel people m now := by
  intro fuel
  induction fuel with
  | zero => intro people m now; rfl
  | succ fuel ih =>
    intro people m now
    unfold greedy
    cases hmax : argmaxMat m with
    | none => rfl
    | some x =>
      obtain ⟨i, j, v⟩ := x
      dsimp only
      by_cases hv : v < 0
      · rw [if_pos hv, if_pos hv]
      · rw [if_neg hv, if_neg hv]
        rcases detsSameView_get? h j with ⟨hn, hn'⟩ | ⟨a, b, ha, hb, hab⟩
        · rw [hn, hn']
          cases people.get? i <;> rfl
        · rw [ha, hb]
          cases hp : people.get? i with
          | none => rfl
          | some kv =>
            obtain ⟨pid, p⟩ := kv
            dsimp only
            rw [hab.2.1, hab.2.2, ih]

/-- C7 (amended): a detection whose bounding box is missing is not
skipped — `update` treats it exactly as if its box were the default
`[0, 0, 10, 10]`, and the batch proceeds without error. -/
theorem missing_bbox_default :
    ∀ (tr : PersonTracker) (dets : List Detection) (now : ℚ) (fresh : ℕ → String)
      (i : ℕ) (d : Detection),
      dets.get? i = some d → d.bbox = none →
      PersonTracker.update tr dets now fresh =
        PersonTracker.update tr (dets.set i { d with bbox := some ⟨0, 0, 10, 10⟩ }) now fresh := by
  intro tr dets now fresh i d hd hb
  have hsv : DetsSameView dets (dets.set i { d with bbox := some ⟨0, 0, 10, 10⟩ }) :=
    detsSameView_set hd (detSameView_default hb)
  unfold PersonTracker.update
  dsimp only
  rw [List.length_set, ← simMatrix_congr tr _ hsv, ← greedy_congr hsv]
  simp only [← createNew_congr hsv]

/-- Counterexample for C7 as stated: a person-class detection with no
bounding box is *not* skipped — on an empty store it spawns a new
tracked person, with the default box `[0, 0, 10, 10]`, and appears in
the returned mapping. -/
theorem missing_bbox_spawns_cx :
    (PersonTracker.update PersonTracker.init [cxDetNoBox] 100 (fun _ => "p0")).1
      = some [(0, "p0")]
    ∧ ((PersonTracker.update PersonTracker.init [cxDetNoBox] 100 (fun _ => "p0")).2.people.map
        (fun kv => (kv.1, kv.2.bbox)))
      = [("p0", ⟨0, 0, 10, 10⟩)] := by
  constructor <;>
    simp [PersonTracker.update, PersonTracker.init, evictStale, createNew, cxDetNoBox,
      isPersonDet, pyLower, detBbox, detConfidence, Person.init, List.range_succ]

/-- Witness for C7's amended theorem at a concrete bbox-less
detection. -/
theorem missing_bbox_default_witness :
    ([cxDetNoBox].get? 0 = some cxDetNoBox ∧ cxDetNoBox.bbox = none)
    ∧ PersonTracker.update PersonTracker.init [cxDetNoBox] 100 freshA =
        PersonTracker.update PersonTracker.init
          ([cxDetNoBox].set 0 { cxDetNoBox with bbox := some ⟨0, 0, 10, 10⟩ }) 100 freshA :=
  ⟨⟨rfl, rfl⟩, missing_bbox_default _ _ _ _ 0 cxDetNoBox rfl rfl⟩

/-! ## Claims C1 and C4: the association engine -/

theorem argmaxRow_sound : ∀ (row : List (WithBot ℚ)) (j : ℕ) (v : WithBot ℚ),
    argmaxRow row = some (j, v) → row.get? j = some v := by
  intro row
  induction row with
  | nil => intro j v h; simp [argmaxRow] at h
  | cons x rest ih =>
    intro j v h
    unfold argmaxRow at h
    cases hr : argmaxRow rest with
    | none =>
      rw [hr] at h
      dsimp only at h
      cases h
      rfl
    | some jw =>
      obtain ⟨j', w⟩ := jw
      rw [hr] at h
      dsimp only at h
      by_cases hgt : w > x
      · rw [if_pos hgt] at h
        cases h
        exact ih _ _ hr
      · rw [if_neg hgt] at h
        cases h
        rfl

theorem argmaxMat_sound : ∀ (m : SimMatrix) (i j : ℕ) (v : WithBot ℚ),
    argmaxMat m = some (i, j, v) → entry? m i j = some v := by
  intro m
  induction m with
  | nil => intro i j v h; simp [argmaxMat] at h
  | cons row rest ih =>
    intro i j v h
    unfold argmaxMat at h
    cases hrow : argmaxRow row with
    | none =>
      rw [hrow] at h
      cases hrest : argmaxMat rest with
      | none =>
        rw [hrest] at h
        dsimp only at h
        cases h
      | some x =>
        obtain ⟨i', j', w⟩ := x
        rw [hrest] at h
        dsimp only at h
        cases h
        exact ih _ _ _ hrest
    | some jv =>
      obtain ⟨j0, v0⟩ := jv
      rw [hrow] at h
      cases hrest : argmaxMat rest with
      | none =>
        rw [hrest] at h
        dsimp only at h
        cases h
        exact argmaxRow_sound row _ _ hrow
      | some x =>
        obtain ⟨i', j', w⟩ := x
        rw [hrest] at h
        dsimp only at h
        by_cases hgt : w > v0
        · rw [if_pos hgt] at h
          cases h
          exact ih _ _ _ hrest
        · rw [if_neg hgt] at h
          cases h
          exact argmaxRow_sound row _ _ hrow

theorem entry?_maskCol {m : SimMatrix} {j i' j' : ℕ} {v : WithBot ℚ}
    (h : entry? (maskCol m j) i' j' = some v) :
    v = ((-1 : ℚ) : WithBot ℚ) ∨ entry? m i' j' = some v := by
  unfold entry? maskCol at h
  unfold entry?
  rw [List.get?_map] at h
  cases hrow : m.get? i' with
  | none => rw [hrow] at h; simp at h
  | some row =>
    rw [hrow] at h
    simp only [Option.map_some', Option.some_bind] at h
    rw [List.get?_set] at h
    by_cases hj : j = j'
    · rw [if_pos hj] at h
      cases hr : row.get? j' with
      | none => rw [hr] at h; simp at h
      | some w =>
        rw [hr] at h
        simp at h
        exact Or.inl h.symm
    · rw [if_neg hj] at h
      right
      simpa using h

theorem entry?_maskCol_self {m : SimMatrix} {j i' : ℕ} {v : WithBot ℚ}
    (h : entry? (maskCol m j) i' j = some v) :
    v = ((-1 : ℚ) : WithBot ℚ) := by
  unfold entry? maskCol at h
  rw [List.get?_map] at h
  cases hrow : m.get? i' with
  | none => rw [hrow] at h; simp at h
  | some row =>
    rw [hrow] at h
    simp only [Option.map_some', Option.some_bind] at h
    rw [List.get?_set, if_pos rfl] at h
    cases hr : row.get? j with
    | none => rw [hr] at h; simp at h
    | some w =>
      rw [hr] at h
      simp at h
      exact h.symm

theorem entry?_maskRow {m : SimMatrix} {i i' j' : ℕ} {v : WithBot ℚ}
    (h : entry? (maskRow m i) i' j' = some v) :
    v = ((-1 : ℚ) : WithBot ℚ) ∨ entry? m i' j' = some v := by
  unfold maskRow at h
  cases hri : m.get? i with
  | none =>
    rw [hri] at h
    right
    exact h
  | some row =>
    rw [hri] at h
    unfold entry? at h ⊢
    rw [List.get?_set] at h
    by_cases hii : i = i'
    · rw [if_pos hii] at h
      rw [← hii, hri] at h
      simp only [Option.map_eq_map, Option.map_some', Option.some_bind] at h
      rw [List.get?_map] at h
      cases hr : row.get? j' with
      | none => rw [hr] at h; simp at h
      | some w =>
        rw [hr] at h
        simp at h
        exact Or.inl h.symm
    · rw [if_neg hii] at h
      right
      exact h

theorem entry?_mask {m : SimMatrix} {i j i' j' : ℕ} {v : WithBot ℚ}
    (h : entry? (maskCol (maskRow m i) j) i' j' = some v) :
    v = ((-1 : ℚ) : WithBot ℚ) ∨ entry? m i' j' = some v := by
  rcases entry?_maskCol h with h1 | h2
  · exact Or.inl h1
  · exact entry?_maskRow h2

theorem entry?_maskRow_self {m : SimMatrix} {i j' : ℕ} {v : WithBot ℚ}
    (h : entry? (maskRow m i) i j' = some v) :
    v = ((-1 : ℚ) : WithBot ℚ) := by
  unfold maskRow at h
  cases hri : m.get? i with
  | none =>
    rw [hri] at h
    unfold entry? at h
    rw [hri] at h
    simp at h
  | some row =>
    rw [hri] at h
    unfold entry? at h
    rw [List.get?_set, if_pos rfl, hri] at h
    simp only [Option.map_eq_map, Option.map_some', Option.some_bind] at h
    rw [List.get?_map] at h
    cases hr : row.get? j' with
    | none => rw [hr] at h; simp at h
    | some w =>
      rw [hr] at h
      simp at h
      exact h.symm

theorem entry?_maskRowCol_self {m : SimMatrix} {i j j' : ℕ} {v : WithBot ℚ}
    (h : entry? (maskCol (maskRow m i) j) i j' = some v) :
    v = ((-1 : ℚ) : WithBot ℚ) := by
  rcases entry?_maskCol h with h1 | h2
  · exact h1
  · exact entry?_maskRow_self h2

theorem neg_one_lt_zero_bot : ((-1 : ℚ) : WithBot ℚ) < 0 := by
  exact_mod_cast (by norm_num : (-1 : ℚ) < (0 : ℚ))

theorem simOK_mask {m : SimMatrix} {dets : List Detection} {i j : ℕ}
    (h : SimOK m dets) : SimOK (maskCol (maskRow m i) j) dets := by
  intro i' j' v hv hge
  rcases entry?_mask hv with h1 | h2
  · subst h1
    exact absurd hge (not_le.mpr neg_one_lt_zero_bot)
  · exact h i' j' v h2 hge

theorem colsDead_mask {m : SimMatrix} {J : List ℕ} {i j : ℕ}
    (h : ColsDead m J) : ColsDead (maskCol (maskRow m i) j) (j :: J) := by
  intro j' hj' i' v hv
  rcases List.mem_cons.mp hj' with rfl | hmem
  · rw [entry?_maskCol_self hv]
    exact neg_one_lt_zero_bot
  · rcases entry?_mask hv with h1 | h2
    · subst h1
      exact neg_one_lt_zero_bot
    · exact h j' hmem i' v h2

theorem rowsDead_mask {m : SimMatrix} {I : List ℕ} {i j : ℕ}
    (h : RowsDead m I) : RowsDead (maskCol (maskRow m i) j) (i :: I) := by
  intro i' hi' j' v hv
  rcases List.mem_cons.mp hi' with rfl | hmem
  · rw [entry?_maskRowCol_self hv]
    exact neg_one_lt_zero_bot
  · rcases entry?_mask hv with h1 | h2
    · subst h1
      exact neg_one_lt_zero_bot
    · exact h i' hmem j' v h2

theorem simOK_simMatrix (tr : PersonTracker) (people : Dict Person)
    (dets : List Detection) : SimOK (simMatrix tr people dets) dets := by
  intro i j v hv hge
  unfold entry? simMatrix at hv
  rw [List.get?_map] at hv
  cases hp : people.get? i with
  | none => rw [hp] at hv; simp at hv
  | some kv =>
    rw [hp] at hv
    simp only [Option.map_some', Option.some_bind] at hv
    rw [List.get?_map] at hv
    cases hd : dets.get? j with
    | none => rw [hd] at hv; simp at hv
    | some d =>
      rw [hd] at hv
      simp only [Option.map_some', Option.some.injEq] at hv
      refine ⟨d, rfl, ?_⟩
      by_contra hnp
      have hbot : similarity tr kv.2 d = ⊥ := by
        unfold similarity
        rw [if_pos (by simpa using hnp)]
      rw [← hv, hbot] at hge
      simp at hge

theorem set_of_get? {α : Type} : ∀ (l : List α) (i : ℕ) (a : α),
    l.get? i = some a → l.set i a = l := by
  intro l
  induction l with
  | nil => intro i a h; simp at h
  | cons x rest ih =>
    intro i a h
    cases i with
    | zero =>
      cases h
      rfl
    | succ n =>
      show x :: rest.set n a = x :: rest
      rw [ih n a h]

theorem map_fst_set {people : Dict Person} {i : ℕ} {pid : String} {p p' : Person}
    (h : people.get? i = some (pid, p)) :
    (people.set i (pid, p')).map Prod.fst = people.map Prod.fst := by
  rw [List.map_set]
  apply set_of_get?
  rw [List.get?_map, h]
  rfl

theorem greedy_people_keys (dets : List Detection) :
    ∀ (fuel : ℕ) (people : Dict Person) (m : SimMatrix) (now : ℚ),
      ((greedy dets fuel people m now).2).map Prod.fst = people.map Prod.fst := by
  intro fuel
  induction fuel with
  | zero => intro people m now; rfl
  | succ fuel ih =>
    intro people m now
    unfold greedy
    cases hmax : argmaxMat m with
    | none => rfl
    | some x =>
      obtain ⟨i, j, v⟩ := x
      dsimp only
      by_cases hv : v < 0
      · rw [if_pos hv]
      · rw [if_neg hv]
        cases hp : people.get? i with
        | none => rfl
        | some kv =>
          obtain ⟨pid, p⟩ := kv
          cases hd : dets.get? j with
          | none => rfl
          | some d =>
            dsimp only
            have hk := ih (people.set i (pid, Person.update p (detBbox d) (detConfidence d) now))
              (maskCol (maskRow m i) j) now
            cases hg : greedy dets fuel
                (people.set i (pid, Person.update p (detBbox d) (detConfidence d) now))
                (maskCol (maskRow m i) j) now with
            | mk opt people' =>
              rw [hg] at hk
              cases opt with
              | none =>
                dsimp only
                rw [hk.trans (map_fst_set hp)]
              | some ms =>
                dsimp only
                rw [hk.trans (map_fst_set hp)]

theorem greedy_main (dets : List Detection) :
    ∀ (fuel : ℕ) (people : Dict Person) (m : SimMatrix) (now : ℚ)
      (ms : List (ℕ × String)) (people' : Dict Person) (J I : List ℕ),
      greedy dets fuel people m now = (some ms, people') →
      SimOK m dets → ColsDead m J → RowsDead m I →
      (∀ jp ∈ ms,
        (∃ d, dets.get? jp.1 = some d ∧ isPersonDet d = true)
        ∧ jp.1 ∉ J
        ∧ ∃ idx, idx ∉ I ∧ (people.map Prod.fst).get? idx = some jp.2)
      ∧ (ms.map Prod.fst).Nodup
      ∧ ((people.map Prod.fst).Nodup → (ms.map Prod.snd).Nodup) := by
  intro fuel
  induction fuel with
  | zero =>
    intro people m now ms people' J I hres
    simp [greedy] at hres
  | succ fuel ih =>
    intro people m now ms people' J I hres hsim hcols hrows
    unfold greedy at hres
    cases hmax : argmaxMat m with
    | none =>
      rw [hmax] at hres
      simp at hres
    | some x =>
      obtain ⟨i, j, v⟩ := x
      rw [hmax] at hres
      dsimp only at hres
      by_cases hv : v < 0
      · rw [if_pos hv] at hres
        simp only [Prod.mk.injEq, Option.some.injEq] at hres
        obtain ⟨hms, _⟩ := hres
        subst hms
        refine ⟨?_, by simp, fun _ => by simp⟩
        intro jp hjp
        simp at hjp
      · rw [if_neg hv] at hres
        have hent := argmaxMat_sound m i j v hmax
        have hge : 0 ≤ v := not_lt.mp hv
        cases hp : people.get? i with
        | none =>
          rw [hp] at hres
          dsimp only at hres
          simp at hres
        | some kv =>
          obtain ⟨pid, p⟩ := kv
          cases hd : dets.get? j with
          | none =>
            rw [hd, hp] at hres
            dsimp only at hres
            simp at hres
          | some d =>
            rw [hd, hp] at hres
            dsimp only at hres
            cases hg : greedy dets fuel
                (people.set i (pid, Person.update p (detBbox d) (detConfidence d) now))
                (maskCol (maskRow m i) j) now with
            | mk opt people'' =>
              rw [hg] at hres
              cases opt with
              | none =>
                dsimp only at hres
                simp at hres
              | some ms' =>
                dsimp only at hres
                simp only [Prod.mk.injEq, Option.some.injEq] at hres
                obtain ⟨hms, hpe⟩ := hres
                subst hms
                obtain ⟨IHmem, IHkeys, IHvals⟩ := ih
                  (people.set i (pid, Person.update p (detBbox d) (detConfidence d) now))
                  (maskCol (maskRow m i) j) now ms' people'' (j :: J) (i :: I) hg
                  (simOK_mask hsim) (colsDead_mask hcols) (rowsDead_mask hrows)
                have hkeys_eq :
                    ((people.set i (pid, Person.update p (detBbox d) (detConfidence d) now)).map
                      Prod.fst) = people.map Prod.fst := map_fst_set hp
                have hkp : (people.map Prod.fst).get? i = some pid := by
                  rw [List.get?_map, hp]
                  rfl
                refine ⟨?_, ?_, ?_⟩
                · intro jp hjp
                  rcases List.mem_cons.mp hjp with rfl | hmem
                  · refine ⟨hsim i j v hent hge, ?_, ⟨i, ?_, hkp⟩⟩
                    · intro hjJ
                      exact absurd (hcols j hjJ i v hent) (not_lt.mpr hge)
                    · intro hiI
                      exact absurd (hrows i hiI j v hent) (not_lt.mpr hge)
                  · obtain ⟨hdet, hnotJ, idx, hnotI, hidx⟩ := IHmem jp hmem
                    refine ⟨hdet, fun hjJ => hnotJ (List.mem_cons_of_mem _ hjJ), idx,
                      fun hiI => hnotI (List.mem_cons_of_mem _ hiI), ?_⟩
                    rw [← hkeys_eq]
                    exact hidx
                · rw [List.map_cons]
                  refine List.nodup_cons.mpr ⟨?_, IHkeys⟩
                  intro hjmem
                  obtain ⟨jp, hjp, hfst⟩ := List.mem_map.mp hjmem
                  obtain ⟨_, hnotJ, _⟩ := IHmem jp hjp
                  exact hnotJ (hfst ▸ List.mem_cons_self j J)
                · intro hnodup
                  rw [List.map_cons]
                  refine List.nodup_cons.mpr
                    ⟨?_, IHvals (by rw [hkeys_eq]; exact hnodup)⟩
                  intro hpidmem
                  obtain ⟨jp, hjp, hsnd⟩ := List.mem_map.mp hpidmem
                  obtain ⟨_, _, idx, hnotI, hidx⟩ := IHmem jp hjp
                  rw [hkeys_eq] at hidx
                  have hlen : i < (people.map Prod.fst).length := by
                    rcases List.get?_eq_some.mp hkp with ⟨hl, _⟩
                    exact hl
                  have hii : i = idx := List.get?_inj hlen hnodup (by rw [hkp, hidx, hsnd])
                  exact hnotI (hii ▸ List.mem_cons_self i I)

theorem createNew_mem (dets : List Detection) :
    ∀ (idxs : List ℕ) (now : ℚ) (fresh : ℕ → String) (k : ℕ) (i : ℕ) (pid : String),
      (i, pid) ∈ (createNew dets idxs now fresh k).1 →
      i ∈ idxs ∧ (∃ d, dets.get? i = some d ∧ isPersonDet d = true)
      ∧ ∃ n, k ≤ n ∧ pid = fresh n := by
  intro idxs
  induction idxs with
  | nil =>
    intro now fresh k i pid h
    simp [createNew] at h
  | cons x rest ih =>
    intro now fresh k i pid h
    unfold createNew at h
    cases hd : dets.get? x with
    | none =>
      rw [hd] at h
      obtain ⟨h1, h2, n, hn, hpid⟩ := ih now fresh k i pid h
      exact ⟨List.mem_cons_of_mem _ h1, h2, n, hn, hpid⟩
    | some d =>
      rw [hd] at h
      dsimp only at h
      by_cases hp : isPersonDet d = true
      · rw [if_pos hp] at h
        dsimp only at h
        rcases List.mem_cons.mp h with heq | hmem
        · have h1 : i = x := congrArg Prod.fst heq
          have h2 : pid = fresh k := congrArg Prod.snd heq
          subst h1
          exact ⟨List.mem_cons_self _ _, ⟨d, hd, hp⟩, k, le_refl k, h2⟩
        · obtain ⟨h1, h2, n, hn, hpid⟩ := ih now fresh (k + 1) i pid hmem
          exact ⟨List.mem_cons_of_mem _ h1, h2, n, by omega, hpid⟩
      · rw [if_neg hp] at h
        obtain ⟨h1, h2, n, hn, hpid⟩ := ih now fresh k i pid h
        exact ⟨List.mem_cons_of_mem _ h1, h2, n, hn, hpid⟩

theorem createNew_complete (dets : List Detection) :
    ∀ (idxs : List ℕ) (now : ℚ) (fresh : ℕ → String) (k : ℕ) (i : ℕ) (d : Detection),
      i ∈ idxs → dets.get? i = some d → isPersonDet d = true →
      ∃ pid, (i, pid) ∈ (createNew dets idxs now fresh k).1 := by
  intro idxs
  induction idxs with
  | nil =>
    intro now fresh k i d h
    simp at h
  | cons x rest ih =>
    intro now fresh k i d hmem hd hp
    unfold createNew
    rcases List.mem_cons.mp hmem with rfl | hmem'
    · rw [hd]
      dsimp only
      rw [if_pos hp]
      dsimp only
      exact ⟨fresh k, List.mem_cons_self _ _⟩
    · cases hdx : dets.get? x with
      | none => exact ih now fresh k i d hmem' hd hp
      | some dx =>
        dsimp only
        by_cases hpx : isPersonDet dx = true
        · rw [if_pos hpx]
          dsimp only
          obtain ⟨pid, hpid⟩ := ih now fresh (k + 1) i d hmem' hd hp
          exact ⟨pid, List.mem_cons_of_mem _ hpid⟩
        · rw [if_neg hpx]
          exact ih now fresh k i d hmem' hd hp

theorem createNew_keys_sublist (dets : List Detection) :
    ∀ (idxs : List ℕ) (now : ℚ) (fresh : ℕ → String) (k : ℕ),
      ((createNew dets idxs now fresh k).1.map Prod.fst).Sublist idxs := by
  intro idxs
  induction idxs with
  | nil =>
    intro now fresh k
    simp [createNew]
  | cons x rest ih =>
    intro now fresh k
    unfold createNew
    cases hd : dets.get? x with
    | none => exact (ih now fresh k).cons x
    | some d =>
      dsimp only
      by_cases hp : isPersonDet d = true
      · rw [if_pos hp]
        dsimp only
        exact (ih now fresh (k + 1)).cons₂ x
      · rw [if_neg hp]
        exact (ih now fresh k).cons x

theorem createNew_vals_fresh (dets : List Detection)
    (idxs : List ℕ) (now : ℚ) (fresh : ℕ → String) (k : ℕ) (pid : String)
    (h : pid ∈ (createNew dets idxs now fresh k).1.map Prod.snd) :
    ∃ n, k ≤ n ∧ pid = fresh n := by
  obtain ⟨jp, hjp, hsnd⟩ := List.mem_map.mp h
  obtain ⟨_, _, n, hn, hpid⟩ := createNew_mem dets idxs now fresh k jp.1 jp.2
    (by rwa [Prod.mk.eta])
  exact ⟨n, hn, by rw [← hsnd, hpid]⟩

theorem createNew_vals_nodup (dets : List Detection) (fresh : ℕ → String)
    (hinj : ∀ a b, fresh a = fresh b → a = b) :
    ∀ (idxs : List ℕ) (now : ℚ) (k : ℕ),
      ((createNew dets idxs now fresh k).1.map Prod.snd).Nodup := by
  intro idxs
  induction idxs with
  | nil =>
    intro now k
    simp [createNew]
  | cons x rest ih =>
    intro now k
    unfold createNew
    cases hd : dets.get? x with
    | none => exact ih now k
    | some d =>
      dsimp only
      by_cases hp : isPersonDet d = true
      · rw [if_pos hp]
        dsimp only
        rw [List.map_cons]
        refine List.nodup_cons.mpr ⟨?_, ih now (k + 1)⟩
        intro hmem
        obtain ⟨n, hn, hpid⟩ := createNew_vals_fresh dets rest now fresh (k + 1) _ hmem
        have := hinj k n hpid
        omega
      · rw [if_neg hp]
        exact ih now k

theorem createNew_people_keys (dets : List Detection) :
    ∀ (idxs : List ℕ) (now : ℚ) (fresh : ℕ → String) (k : ℕ),
      (createNew dets idxs now fresh k).2.map Prod.fst
        = (createNew dets idxs now fresh k).1.map Prod.snd := by
  intro idxs
  induction idxs with
  | nil =>
    intro now fresh k
    rfl
  | cons x rest ih =>
    intro now fresh k
    unfold createNew
    cases hd : dets.get? x with
    | none => exact ih now fresh k
    | some d =>
      dsimp only
      by_cases hp : isPersonDet d = true
      · rw [if_pos hp]
        dsimp only
        rw [List.map_cons, List.map_cons, ih now fresh (k + 1)]
      · rw [if_neg hp]
        exact ih now fresh k

theorem keys_nodup_val_eq {α : Type} :
    ∀ (l : List (String × α)), (l.map Prod.fst).Nodup →
      ∀ (k : String) (a b : α), (k, a) ∈ l → (k, b) ∈ l → a = b := by
  intro l
  induction l with
  | nil =>
    intro _ k a b ha
    simp at ha
  | cons kv rest ih =>
    intro hnd k a b ha hb
    rw [List.map_cons, List.nodup_cons] at hnd
    rcases List.mem_cons.mp ha with rfl | ha' <;> rcases List.mem_cons.mp hb with heq | hb'
    · exact (congrArg Prod.snd heq).symm
    · exact absurd (List.mem_map.mpr ⟨(k, b), hb', rfl⟩) hnd.1
    · have hk : kv.1 = k := (congrArg Prod.fst heq).symm ▸ rfl
      exact absurd (List.mem_map.mpr ⟨(k, a), ha', hk ▸ rfl⟩) hnd.1
    · exact ih hnd.2 k a b ha' hb'

theorem mem_evictStale {people : Dict Person} {now mem : ℚ} {kv : String × Person} :
    kv ∈ evictStale people now mem ↔ kv ∈ people ∧ ¬ now - kv.2.last_seen > mem := by
  unfold evictStale
  rw [List.mem_filter]
  simp

theorem evictStale_keys_sublist (people : Dict Person) (now mem : ℚ) :
    ((evictStale people now mem).map Prod.fst).Sublist (people.map Prod.fst) :=
  (List.filter_sublist people).map Prod.fst

/-- C1: the mapping returned by a successful `update` contains each
person-class detection exactly once — matched or freshly created —
contains no other class, and repeats neither detection indices nor
person ids.  (Fresh uuids are assumed injective and new, and the store
keys distinct, as `uuid4` guarantees.) -/
theorem update_assignment_ok :
    ∀ (tr : PersonTracker) (dets : List Detection) (now : ℚ) (fresh : ℕ → String)
      (ms : List (ℕ × String)),
      (tr.people.map Prod.fst).Nodup →
      (∀ a b, fresh a = fresh b → a = b) →
      (∀ k, fresh k ∉ tr.people.map Prod.fst) →
      (PersonTracker.update tr dets now fresh).1 = some ms →
      AssignmentOK dets ms
      ∧ ∀ i pid, (i, pid) ∈ ms →
          pid ∈ tr.people.map Prod.fst ∨ ∃ n, pid = fresh n := by
  intro tr dets now fresh ms hnd hinj hnew hres
  unfold PersonTracker.update at hres
  dsimp only at hres
  by_cases hpe : evictStale tr.people now tr.person_memory = []
  · rw [if_pos hpe] at hres
    dsimp only at hres
    simp only [Option.some.injEq] at hres
    subst hres
    refine ⟨⟨?_, ?_, ?_, ?_⟩, ?_⟩
    · intro i pid hmem
      exact (createNew_mem dets _ now fresh 0 i pid hmem).2.1
    · intro i d hd hp
      have hi : i ∈ List.range dets.length := List.mem_range.mpr (by
        rcases List.get?_eq_some.mp hd with ⟨hl, _⟩
        exact hl)
      exact createNew_complete dets _ now fresh 0 i d hi hd hp
    · exact (createNew_keys_sublist dets _ now fresh 0).nodup (List.nodup_range _)
    · exact createNew_vals_nodup dets fresh hinj _ now 0
    · intro i pid hmem
      obtain ⟨_, _, n, _, hpid⟩ := createNew_mem dets _ now fresh 0 i pid hmem
      exact Or.inr ⟨n, hpid⟩
  · rw [if_neg hpe] at hres
    cases hg : greedy dets
        ((evictStale tr.people now tr.person_memory).length * dets.length + 1)
        (evictStale tr.people now tr.person_memory)
        (simMatrix tr (evictStale tr.people now tr.person_memory) dets) now with
    | mk opt people1 =>
      rw [hg] at hres
      cases opt with
      | none =>
        dsimp only at hres
        cases hres
      | some ms0 =>
        dsimp only at hres
        simp only [Option.some.injEq] at hres
        subst hres
        obtain ⟨Gmem, Gkeys, Gvals⟩ := greedy_main dets _ _ _ _ _ _ [] [] hg
          (simOK_simMatrix tr _ dets)
          (by intro j hj; simp at hj)
          (by intro i hi; simp at hi)
        have hevnd : ((evictStale tr.people now tr.person_memory).map Prod.fst).Nodup :=
          (evictStale_keys_sublist tr.people now tr.person_memory).nodup hnd
        refine ⟨⟨?_, ?_, ?_, ?_⟩, ?_⟩
        · intro i pid hmem
          rcases List.mem_append.mp hmem with hmem0 | hmem1
          · exact (Gmem (i, pid) hmem0).1
          · exact (createNew_mem dets _ now fresh 0 i pid hmem1).2.1
        · intro i d hd hp
          by_cases hmatched : i ∈ ms0.map Prod.fst
          · obtain ⟨jp, hjp, hfst⟩ := List.mem_map.mp hmatched
            refine ⟨jp.2, List.mem_append_left _ ?_⟩
            have hjpi : jp = (i, jp.2) := by
              rw [← hfst]
            rw [← hjpi]
            exact hjp
          · have hi : i ∈ (List.range dets.length).filter
                (fun i => ! (ms0.map Prod.fst).contains i) := by
              rw [List.mem_filter]
              refine ⟨List.mem_range.mpr (by
                rcases List.get?_eq_some.mp hd with ⟨hl, _⟩
                exact hl), ?_⟩
              simpa [List.elem_iff] using hmatched
            obtain ⟨pid, hpid⟩ := createNew_complete dets _ now fresh 0 i d hi hd hp
            exact ⟨pid, List.mem_append_right _ hpid⟩
        · rw [List.map_append, List.nodup_append]
          refine ⟨Gkeys,
            (createNew_keys_sublist dets _ now fresh 0).nodup
              ((List.nodup_range _).filter _), ?_⟩
          intro a ha hb
          have hafil := (createNew_keys_sublist dets _ now fresh 0).subset hb
          rw [List.mem_filter] at hafil
          have : ¬ a ∈ ms0.map Prod.fst := by
            simpa [List.elem_iff] using hafil.2
          exact this ha
        · rw [List.map_append, List.nodup_append]
          refine ⟨Gvals hevnd, createNew_vals_nodup dets fresh hinj _ now 0, ?_⟩
          intro a ha hb
          obtain ⟨jp, hjp, hsnd⟩ := List.mem_map.mp ha
          obtain ⟨_, _, idx, _, hidx⟩ := Gmem jp hjp
          have hmem1 : a ∈ (evictStale tr.people now tr.person_memory).map Prod.fst := by
            rw [← hsnd]
            exact List.get?_mem hidx
          have hmem2 : a ∈ tr.people.map Prod.fst :=
            (evictStale_keys_sublist tr.people now tr.person_memory).subset hmem1
          obtain ⟨n, _, hfreshn⟩ := createNew_vals_fresh dets _ now fresh 0 a hb
          exact hnew n (hfreshn ▸ hmem2)
        · intro i pid hmem
          rcases List.mem_append.mp hmem with hmem0 | hmem1
          · obtain ⟨_, _, idx, _, hidx⟩ := Gmem (i, pid) hmem0
            exact Or.inl ((evictStale_keys_sublist tr.people now tr.person_memory).subset
              (List.get?_mem hidx))
          · obtain ⟨_, _, n, _, hpid⟩ := createNew_mem dets _ now fresh 0 i pid hmem1
            exact Or.inr ⟨n, hpid⟩

theorem mem_keys_exists {α : Type} {l : List (String × α)} {k : String}
    (h : k ∈ l.map Prod.fst) : ∃ v, (k, v) ∈ l := by
  obtain ⟨kv, hkv, hfst⟩ := List.mem_map.mp h
  exact ⟨kv.2, by rw [← hfst]; simpa using hkv⟩

/-- C4: a person whose absence exceeds `person_memory` is evicted by
`update` before matching — absent from the resulting store and never a
value of the returned mapping — while every person inside the
threshold survives into the resulting store. -/
theorem update_eviction :
    ∀ (tr : PersonTracker) (dets : List Detection) (now : ℚ) (fresh : ℕ → String),
      (tr.people.map Prod.fst).Nodup →
      (∀ k, fresh k ∉ tr.people.map Prod.fst) →
      (∀ pid p, (pid, p) ∈ tr.people → now - p.last_seen > tr.person_memory →
        pid ∉ (PersonTracker.update tr dets now fresh).2.people.map Prod.fst
        ∧ ∀ ms, (PersonTracker.update tr dets now fresh).1 = some ms →
            pid ∉ ms.map Prod.snd)
      ∧ (∀ pid p, (pid, p) ∈ tr.people → ¬ now - p.last_seen > tr.person_memory →
        pid ∈ (PersonTracker.update tr dets now fresh).2.people.map Prod.fst) := by
  intro tr dets now fresh hnd hnew
  have hstale_out : ∀ pid p, (pid, p) ∈ tr.people → now - p.last_seen > tr.person_memory →
      pid ∉ (evictStale tr.people now tr.person_memory).map Prod.fst := by
    intro pid p hmem hstale hin
    obtain ⟨q, hq⟩ := mem_keys_exists hin
    have hq' := mem_evictStale.mp hq
    have : q = p := keys_nodup_val_eq tr.people hnd pid q p hq'.1 hmem
    exact hq'.2 (this ▸ hstale)
  have hfresh_out : ∀ pid, pid ∈ tr.people.map Prod.fst →
      ∀ (idxs : List ℕ) (k : ℕ),
        pid ∉ (createNew dets idxs now fresh k).1.map Prod.snd := by
    intro pid hpid idxs k hin
    obtain ⟨n, _, hfreshn⟩ := createNew_vals_fresh dets idxs now fresh k pid hin
    exact hnew n (hfreshn ▸ hpid)
  constructor
  · intro pid p hmem hstale
    have hout := hstale_out pid p hmem hstale
    have hpid_in : pid ∈ tr.people.map Prod.fst :=
      List.mem_map.mpr ⟨(pid, p), hmem, rfl⟩
    unfold PersonTracker.update
    dsimp only
    by_cases hpe : evictStale tr.people now tr.person_memory = []
    · rw [if_pos hpe]
      dsimp only
      constructor
      · intro hin
        rw [createNew_people_keys] at hin
        exact hfresh_out pid hpid_in _ _ hin
      · intro ms hms
        simp only [Option.some.injEq] at hms
        subst hms
        exact hfresh_out pid hpid_in _ _
    · rw [if_neg hpe]
      cases hg : greedy dets
          ((evictStale tr.people now tr.person_memory).length * dets.length + 1)
          (evictStale tr.people now tr.person_memory)
          (simMatrix tr (evictStale tr.people now tr.person_memory) dets) now with
      | mk opt people1 =>
        have hkeys1 : people1.map Prod.fst
            = (evictStale tr.people now tr.person_memory).map Prod.fst := by
          have := greedy_people_keys dets
            ((evictStale tr.people now tr.person_memory).length * dets.length + 1)
            (evictStale tr.people now tr.person_memory)
            (simMatrix tr (evictStale tr.people now tr.person_memory) dets) now
          rw [hg] at this
          exact this
        cases opt with
        | none =>
          dsimp only
          constructor
          · intro hin
            rw [hkeys1] at hin
            exact hout hin
          · intro ms hms
            cases hms
        | some ms0 =>
          dsimp only
          constructor
          · intro hin
            rw [List.map_append] at hin
            rcases List.mem_append.mp hin with h1 | h2
            · rw [hkeys1] at h1
              exact hout h1
            · rw [createNew_people_keys] at h2
              exact hfresh_out pid hpid_in _ _ h2
          · intro ms hms
            simp only [Option.some.injEq] at hms
            subst hms
            intro hin
            rw [List.map_append] at hin
            rcases List.mem_append.mp hin with h1 | h2
            · obtain ⟨Gmem, _, _⟩ := greedy_main dets _ _ _ _ _ _ [] [] hg
                (simOK_simMatrix tr _ dets)
                (by intro j hj; simp at hj)
                (by intro i hi; simp at hi)
              obtain ⟨jp, hjp, hsnd⟩ := List.mem_map.mp h1
              obtain ⟨_, _, idx, _, hidx⟩ := Gmem jp hjp
              exact hout (by rw [← hsnd]; exact List.get?_mem hidx)
            · exact hfresh_out pid hpid_in _ _ h2
  · intro pid p hmem hfreshp
    have hin : pid ∈ (evictStale tr.people now tr.person_memory).map Prod.fst :=
      List.mem_map.mpr ⟨(pid, p), mem_evictStale.mpr ⟨hmem, hfreshp⟩, rfl⟩
    unfold PersonTracker.update
    dsimp only
    by_cases hpe : evictStale tr.people now tr.person_memory = []
    · rw [hpe] at hin
      simp at hin
    · rw [if_neg hpe]
      cases hg : greedy dets
          ((evictStale tr.people now tr.person_memory).length * dets.length + 1)
          (evictStale tr.people now tr.person_memory)
          (simMatrix tr (evictStale tr.people now tr.person_memory) dets) now with
      | mk opt people1 =>
        have hkeys1 : people1.map Prod.fst
            = (evictStale tr.people now tr.person_memory).map Prod.fst := by
          have := greedy_people_keys dets
            ((evictStale tr.people now tr.person_memory).length * dets.length + 1)
            (evictStale tr.people now tr.person_memory)
            (simMatrix tr (evictStale tr.people now tr.person_memory) dets) now
          rw [hg] at this
          exact this
        cases opt with
        | none =>
          dsimp only
          rw [hkeys1]
          exact hin
        | some ms0 =>
          dsimp only
          rw [List.map_append]
          exact List.mem_append_left _ (hkeys1 ▸ hin)

/-- Witness for C1: an empty tracker and one person detection yield
the single-entry mapping, which satisfies the assignment property. -/
theorem update_assignment_ok_witness :
    ((PersonTracker.init.people.map Prod.fst).Nodup
      ∧ (PersonTracker.update PersonTracker.init [cxDet1] 100 freshA).1
          = some [(0, freshA 0)])
    ∧ (AssignmentOK [cxDet1] [(0, freshA 0)]
      ∧ ∀ i pid, (i, pid) ∈ ([(0, freshA 0)] : List (ℕ × String)) →
          pid ∈ PersonTracker.init.people.map Prod.fst ∨ ∃ n, pid = freshA n) := by
  have hinj : ∀ a b, freshA a = freshA b → a = b := by
    intro a b h
    have hlen := congrArg (fun s => s.data.length) h
    simpa [freshA] using hlen
  have hnew : ∀ k, freshA k ∉ PersonTracker.init.people.map Prod.fst := by
    intro k
    simp [PersonTracker.init]
  have hnd : (PersonTracker.init.people.map Prod.fst).Nodup := by
    simp [PersonTracker.init]
  have hres : (PersonTracker.update PersonTracker.init [cxDet1] 100 freshA).1
      = some [(0, freshA 0)] := by
    simp [PersonTracker.update, PersonTracker.init, evictStale, createNew, cxDet1,
      isPersonDet, pyLower, detBbox, detConfidence, Person.init, List.range_succ]
  exact ⟨⟨hnd, hres⟩,
    update_assignment_ok PersonTracker.init [cxDet1] 100 freshA _ hnd hinj hnew hres⟩

/-- Witness for C4: a person last seen at time 0 is evicted by an
`update` at time 99999 with a one-hour memory. -/
theorem update_eviction_witness :
    (("p", Person.init "p" ⟨0, 0, 10, 10⟩ 1 0) ∈
        ({ PersonTracker.init with
          people := [("p", Person.init "p" ⟨0, 0, 10, 10⟩ 1 0)] } : PersonTracker).people
      ∧ (99999 : ℚ) - (Person.init "p" ⟨0, 0, 10, 10⟩ 1 0).last_seen >
          ({ PersonTracker.init with
            people := [("p", Person.init "p" ⟨0, 0, 10, 10⟩ 1 0)] } : PersonTracker).person_memory)
    ∧ "p" ∉ (PersonTracker.update
        { PersonTracker.init with
          people := [("p", Person.init "p" ⟨0, 0, 10, 10⟩ 1 0)] }
        [] 99999 freshA).2.people.map Prod.fst := by
  have hmem : ("p", Person.init "p" ⟨0, 0, 10, 10⟩ 1 0) ∈
      ({ PersonTracker.init with
        people := [("p", Person.init "p" ⟨0, 0, 10, 10⟩ 1 0)] } : PersonTracker).people := by
    simp [PersonTracker.init]
  have hstale : (99999 : ℚ) - (Person.init "p" ⟨0, 0, 10, 10⟩ 1 0).last_seen >
      ({ PersonTracker.init with
        people := [("p", Person.init "p" ⟨0, 0, 10, 10⟩ 1 0)] } : PersonTracker).person_memory := by
    norm_num [Person.init, PersonTracker.init]
  have hnd : (({ PersonTracker.init with
      people := [("p", Person.init "p" ⟨0, 0, 10, 10⟩ 1 0)] } : PersonTracker).people.map
        Prod.fst).Nodup := by
    simp [PersonTracker.init]
  have hnew : ∀ k, freshA k ∉ ({ PersonTracker.init with
      people := [("p", Person.init "p" ⟨0, 0, 10, 10⟩ 1 0)] } : PersonTracker).people.map
        Prod.fst := by
    intro k
    simp only [PersonTracker.init, List.map_cons, List.map_nil, List.mem_singleton]
    intro h
    have hd := congrArg String.data h
    simp only [freshA] at hd
    rcases k with _ | k
    · simp at hd
    · rw [List.replicate_succ] at hd
      simp at hd
  exact ⟨⟨hmem, hstale⟩,
    ((update_eviction _ [] 99999 freshA hnd hnew).1 "p" _ hmem hstale).1⟩

/-! ## Faithfulness of the fuel encoding of the matching loop -/

theorem countP_set_le {p : WithBot ℚ → Bool} {a : WithBot ℚ} (hpa : p a = false) :
    ∀ (row : List (WithBot ℚ)) (j : ℕ), (row.set j a).countP p ≤ row.countP p := by
  intro row
  induction row with
  | nil => intro j; simp
  | cons x rest ih =>
    intro j
    cases j with
    | zero =>
      simp only [List.set]
      rw [List.countP_cons, List.countP_cons, hpa]
      have := List.countP_le_length (p := p) (l := rest)
      by_cases hx : p x = true
      · simp [hx]
      · simp [hx]
    | succ n =>
      simp only [List.set]
      rw [List.countP_cons, List.countP_cons]
      have := ih n
      omega

theorem sum_map_set {α : Type} (f : α → ℕ) :
    ∀ (l : List α) (i : ℕ) (x a : α), l.get? i = some x →
      ((l.set i a).map f).sum + f x = (l.map f).sum + f a := by
  intro l
  induction l with
  | nil => intro i x a h; simp at h
  | cons y rest ih =>
    intro i x a h
    cases i with
    | zero =>
      cases h
      simp only [List.set, List.map_cons, List.sum_cons]
      omega
    | succ n =>
      simp only [List.set, List.map_cons, List.sum_cons]
      have := ih n x a h
      omega

theorem countNonNeg_maskCol_le (m : SimMatrix) (j : ℕ) :
    countNonNeg (maskCol m j) ≤ countNonNeg m := by
  unfold countNonNeg maskCol
  rw [List.map_map]
  apply List.sum_le_sum
  intro row _
  exact countP_set_le (by decide) row j

theorem countNonNeg_maskRow_lt {m : SimMatrix} {i j : ℕ} {v : WithBot ℚ}
    (hent : entry? m i j = some v) (hge : 0 ≤ v) :
    countNonNeg (maskRow m i) < countNonNeg m := by
  unfold entry? at hent
  cases hrow : m.get? i with
  | none => rw [hrow] at hent; simp at hent
  | some row =>
    rw [hrow] at hent
    simp only [Option.some_bind] at hent
    have hvmem : v ∈ row := List.get?_mem hent
    have hpos : 0 < row.countP (fun v => decide ((0 : WithBot ℚ) ≤ v)) :=
      List.countP_pos.mpr ⟨v, hvmem, by simpa using hge⟩
    unfold maskRow countNonNeg
    rw [hrow]
    dsimp only
    have hzero : (row.map (fun _ => ((-1 : ℚ) : WithBot ℚ))).countP
        (fun v => decide ((0 : WithBot ℚ) ≤ v)) = 0 := by
      rw [List.countP_map]
      simp [Function.comp]
    have hsum := sum_map_set
      (fun row => row.countP (fun v => decide ((0 : WithBot ℚ) ≤ v)))
      m i row (row.map (fun _ => ((-1 : ℚ) : WithBot ℚ))) hrow
    dsimp only at hsum
    rw [hzero] at hsum
    omega

theorem countNonNeg_mask_lt {m : SimMatrix} {i j : ℕ} {v : WithBot ℚ}
    (hent : entry? m i j = some v) (hge : 0 ≤ v) :
    countNonNeg (maskCol (maskRow m i) j) < countNonNeg m :=
  lt_of_le_of_lt (countNonNeg_maskCol_le _ j) (countNonNeg_maskRow_lt hent hge)

/-- The fuel encoding of the matching loop is faithful: with any two
fuels exceeding the number of non-negative matrix entries (an upper
bound on the possible iterations), `greedy` computes the same result,
so the argmax-loop is never cut short by the fuel `update` supplies. -/
theorem greedy_fuel_irrel (dets : List Detection) :
    ∀ (fuel₁ fuel₂ : ℕ) (people : Dict Person) (m : SimMatrix) (now : ℚ),
      countNonNeg m < fuel₁ → countNonNeg m < fuel₂ →
      greedy dets fuel₁ people m now = greedy dets fuel₂ people m now := by
  intro fuel₁
  induction fuel₁ with
  | zero =>
    intro fuel₂ people m now h1
    exact absurd h1 (Nat.not_lt_zero _)
  | succ f ih =>
    intro fuel₂ people m now h1 h2
    cases fuel₂ with
    | zero => exact absurd h2 (Nat.not_lt_zero _)
    | succ f₂ =>
      unfold greedy
      cases hmax : argmaxMat m with
      | none => rfl
      | some x =>
        obtain ⟨i, j, v⟩ := x
        dsimp only
        by_cases hv : v < 0
        · rw [if_pos hv, if_pos hv]
        · rw [if_neg hv, if_neg hv]
          cases hp : people.get? i with
          | none => rfl
          | some kv =>
            obtain ⟨pid, p⟩ := kv
            cases hd : dets.get? j with
            | none => rfl
            | some d =>
              dsimp only
              have hent := argmaxMat_sound m i j v hmax
              have hdec := countNonNeg_mask_lt hent (not_lt.mp hv)
              rw [ih f₂ _ _ now (by omega) (by omega)]

theorem countNonNeg_simMatrix_le (tr : PersonTracker) (people : Dict Person)
    (dets : List Detection) :
    countNonNeg (simMatrix tr people dets) ≤ people.length * dets.length := by
  unfold countNonNeg simMatrix
  rw [List.map_map]
  have hbound : ∀ x ∈ people.map
      ((fun row => row.countP (fun v => decide ((0 : WithBot ℚ) ≤ v))) ∘
        (fun kv : String × Person => dets.map (fun d => similarity tr kv.2 d))),
      x ≤ dets.length := by
    intro x hx
    obtain ⟨kv, _, hkv⟩ := List.mem_map.mp hx
    rw [← hkv]
    calc ((fun row => row.countP (fun v => decide ((0 : WithBot ℚ) ≤ v))) ∘
          (fun kv : String × Person => dets.map (fun d => similarity tr kv.2 d))) kv
        ≤ (dets.map (fun d => similarity tr kv.2 d)).length := List.countP_le_length _
      _ = dets.length := List.length_map _ _
  have := List.sum_le_card_nsmul _ _ hbound
  simpa using this

/-- `update` supplies fuel `people.length * dets.length + 1`, which is
strictly above the iteration bound: any extra fuel gives the same
computation. -/
theorem update_fuel_enough (tr : PersonTracker) (people : Dict Person)
    (dets : List Detection) (now : ℚ) (extra : ℕ) :
    greedy dets (people.length * dets.length + 1) people (simMatrix tr people dets) now
      = greedy dets (people.length * dets.length + 1 + extra) people
          (simMatrix tr people dets) now := by
  have hb := countNonNeg_simMatrix_le tr people dets
  exact greedy_fuel_irrel dets _ _ people _ now (by omega) (by omega)
